import Mathlib

/-
  Verification development for the deployment-metadata accessor layer
  (`index.js`) of the Horizon-Protocol/Phoenix-Horizon repository.

  The JavaScript code is shallowly embedded: JS values become the inductive
  type `Value`, JS objects become ordered association lists with
  `Object.assign` semantics, thrown exceptions become `Except.error`, and
  the one piece of cross-call mutable state (the shared asset registry,
  which `getFeeds` merges into in place) is threaded explicitly.
-/

/-- A JavaScript value (as produced by JSON parsing plus `undefined`). -/
inductive Value where
  | vUndef
  | vNull
  | vBool (b : Bool)
  | vNum (n : Int)
  | vStr (s : String)
  | vArr (l : List Value)
  | vObj (o : List (String × Value))
deriving Repr

mutual

/-- Structural (and, for primitives, JS `===`) equality test on values. -/
def Value.beq : Value → Value → Bool
  | .vUndef, .vUndef => true
  | .vNull, .vNull => true
  | .vBool a, .vBool b => a == b
  | .vNum a, .vNum b => a == b
  | .vStr a, .vStr b => a == b
  | .vArr a, .vArr b => listBeq a b
  | .vObj a, .vObj b => objBeq a b
  | _, _ => false

def listBeq : List Value → List Value → Bool
  | [], [] => true
  | a :: as, b :: bs => Value.beq a b && listBeq as bs
  | _, _ => false

def objBeq : List (String × Value) → List (String × Value) → Bool
  | [], [] => true
  | (k, a) :: as, (k', b) :: bs => k == k' && Value.beq a b && objBeq as bs
  | _, _ => false

end

mutual

theorem Value.beq_eq : ∀ a b : Value, Value.beq a b = true → a = b
  | .vUndef, .vUndef, _ => rfl
  | .vNull, .vNull, _ => rfl
  | .vBool _, .vBool _, h => by
      simp only [Value.beq, beq_iff_eq] at h; simp [h]
  | .vNum _, .vNum _, h => by
      simp only [Value.beq, beq_iff_eq] at h; simp [h]
  | .vStr _, .vStr _, h => by
      simp only [Value.beq, beq_iff_eq] at h; simp [h]
  | .vArr a, .vArr b, h => by
      simp only [Value.beq] at h
      simp [listBeq_eq a b h]
  | .vObj a, .vObj b, h => by
      simp only [Value.beq] at h
      simp [objBeq_eq a b h]

theorem listBeq_eq : ∀ a b : List Value, listBeq a b = true → a = b
  | [], [], _ => rfl
  | x :: xs, y :: ys, h => by
      simp only [listBeq, Bool.and_eq_true] at h
      rw [Value.beq_eq x y h.1, listBeq_eq xs ys h.2]

theorem objBeq_eq : ∀ a b : List (String × Value), objBeq a b = true → a = b
  | [], [], _ => rfl
  | (k, x) :: xs, (k', y) :: ys, h => by
      simp only [objBeq, Bool.and_eq_true, beq_iff_eq] at h
      rw [h.1.1, Value.beq_eq x y h.1.2, objBeq_eq xs ys h.2]

end

mutual

theorem Value.beq_refl : ∀ a : Value, Value.beq a a = true
  | .vUndef => rfl
  | .vNull => rfl
  | .vBool _ => by simp [Value.beq]
  | .vNum _ => by simp [Value.beq]
  | .vStr _ => by simp [Value.beq]
  | .vArr a => by simp [Value.beq, listBeq_refl a]
  | .vObj a => by simp [Value.beq, objBeq_refl a]

theorem listBeq_refl : ∀ a : List Value, listBeq a a = true
  | [] => rfl
  | x :: xs => by simp [listBeq, Value.beq_refl x, listBeq_refl xs]

theorem objBeq_refl : ∀ a : List (String × Value), objBeq a a = true
  | [] => rfl
  | (k, x) :: xs => by simp [objBeq, Value.beq_refl x, objBeq_refl xs]

end

instance : DecidableEq Value := fun a b =>
  if h : Value.beq a b = true then
    .isTrue (Value.beq_eq a b h)
  else
    .isFalse (fun he => h (he ▸ Value.beq_refl a))

/-- A JS object: an ordered association list of own enumerable properties. -/
abbrev Obj := List (String × Value)

/-- Property lookup on an object (`undefined` when the key is absent). -/
def objGet (o : Obj) (k : String) : Value :=
  match o.find? (fun p => p.1 = k) with
  | some p => p.2
  | none => (.vUndef : Value)

/-- JS property assignment `o[k] = v`: updates the existing key in place
    (keeping its position, as JS does) or appends a new key. -/
def objSet (o : Obj) (k : String) (v : Value) : Obj :=
  if o.any (fun p => p.1 = k) then
    o.map (fun p => if p.1 = k then (k, v) else p)
  else
    o ++ [(k, v)]

/-- The own enumerable properties of a value, as used by `Object.entries`,
    `Object.keys` and spread/`Object.assign` sources.  Strings and arrays
    expose their index properties; other primitives (and `null`/`undefined`,
    which `Object.assign` skips) expose none. -/
def enumProps : Value → Obj
  | .vObj o => o
  | .vArr l => l.enum.map (fun p => (toString p.1, p.2))
  | .vStr s => s.data.enum.map (fun p => (toString p.1, Value.vStr (String.singleton p.2)))
  | _ => []

/-- `Object.assign(target, source)` for one source value: copies every own
    enumerable property of the source over the target, in order. -/
def objAssign (target : Obj) (src : Value) : Obj :=
  (enumProps src).foldl (fun acc p => objSet acc p.1 p.2) target

/-- JS truthiness. -/
def truthy : Value → Bool
  | .vUndef => false
  | .vNull => false
  | .vBool b => b
  | .vNum n => n != 0
  | .vStr s => s ≠ ""
  | .vArr _ => true
  | .vObj _ => true

/-- Parse a decimal digit string (used for array-index property keys). -/
def chToNatAux : List Char → Nat → Option Nat
  | [], acc => some acc
  | c :: rest, acc =>
      if '0' ≤ c && c ≤ '9' then chToNatAux rest (10 * acc + (c.toNat - 48))
      else none

def strToNat? (s : String) : Option Nat :=
  match s.data with
  | [] => none
  | cs => chToNatAux cs 0

/-- Property read `v.k` on a value that is known to be an object-like base;
    returns `undefined` for absent keys, and index lookups on arrays and
    strings. -/
def getProp : Value → String → Value
  | .vObj o, k => objGet o k
  | .vArr l, k =>
      (match strToNat? k with
       | some i => if toString i = k then l.getD i .vUndef else .vUndef
       | none => .vUndef)
  | .vStr s, k =>
      (match strToNat? k with
       | some i =>
           if toString i = k then
             (match s.data.get? i with
              | some c => .vStr (String.singleton c)
              | none => .vUndef)
           else .vUndef
       | none => .vUndef)
  | _, _ => (.vUndef : Value)

/-- Property read `v.k` in source position: accessing a property of
    `undefined` or `null` throws a `TypeError` in JS. -/
def jsGet (v : Value) (k : String) : Except String Value :=
  match v with
  | .vUndef => .error ("TypeError: cannot read property " ++ k ++ " of undefined")
  | .vNull => .error ("TypeError: cannot read property " ++ k ++ " of null")
  | w => .ok (getProp w k)

/-- JS `===` restricted to the cases reachable here: primitives compare by
    value; two object/array expressions are distinct references. -/
def jsStrictEqP : Value → Value → Bool
  | .vUndef, .vUndef => true
  | .vNull, .vNull => true
  | .vBool a, .vBool b => a == b
  | .vNum a, .vNum b => a == b
  | .vStr a, .vStr b => a == b
  | _, _ => false

/-- Sequential `Array.prototype.map` with a callback that can throw. -/
def mapE (f : α → Except ε β) : List α → Except ε (List β)
  | [] => .ok []
  | a :: l => do
      let b ← f a
      let bs ← mapE f l
      .ok (b :: bs)

/-- Sequential fold with a body that can throw. -/
def foldE (f : σ → α → Except ε σ) : σ → List α → Except ε σ
  | s, [] => .ok s
  | s, a :: l => do
      let s' ← f s a
      foldE f s' l

/-- JS `String.prototype.includes` on character lists. -/
def charsInclude (sub : List Char) : List Char → Bool
  | [] => sub.isEmpty
  | c :: rest => sub.isPrefixOf (c :: rest) || charsInclude sub rest

/-- JS `s.includes(sub)`. -/
def jsIncludes (s sub : String) : Bool :=
  charsInclude sub.data s.data

/-- `s.startsWith(pre)` (computable by kernel reduction). -/
def jsStartsWith (s pre : String) : Bool := pre.data.isPrefixOf s.data

/-- `s.slice(n)` (computable by kernel reduction). -/
def jsDrop (s : String) (n : Nat) : String := String.mk (s.data.drop n)


/-- `getFolderNameForNetwork` from `index.js`: if the network name already
    mentions `ovm` it is returned unchanged, otherwise `-ovm` is appended
    exactly when `useOvm` is set. -/
def getFolderNameForNetwork (network : String) (useOvm : Bool) : String :=
  if jsIncludes network "ovm" then network
  else if useOvm then network ++ "-ovm" else network

theorem charsInclude_append_of_right (sub m : List Char) (h : charsInclude sub m = true) :
    ∀ l : List Char, charsInclude sub (l ++ m) = true := by
  intro l
  induction l with
  | nil => simpa using h
  | cons c rest ih =>
      simp only [List.cons_append, charsInclude, Bool.or_eq_true]
      exact Or.inr ih

theorem jsIncludes_append_ovm (n : String) : jsIncludes (n ++ "-ovm") "ovm" = true := by
  have hdata : (n ++ "-ovm").data = n.data ++ "-ovm".data := String.data_append n "-ovm"
  unfold jsIncludes
  rw [hdata]
  exact charsInclude_append_of_right _ _ (by decide) n.data

/-- C9: folder-key resolution is idempotent — applying
    `getFolderNameForNetwork` to its own output with the same `useOvm`
    flag yields the same key as applying it once. -/
theorem c9_folder_key_idempotent (network : String) (useOvm : Bool) :
    getFolderNameForNetwork (getFolderNameForNetwork network useOvm) useOvm =
      getFolderNameForNetwork network useOvm := by
  unfold getFolderNameForNetwork
  by_cases h : jsIncludes network "ovm" = true
  · simp [h]
  · simp only [h]
    cases useOvm with
    | false => simp [h]
    | true => simp [jsIncludes_append_ovm network]

/-! ### bytes32 encoding helpers (`toBytes32` / `fromBytes32`)

`toBytes32 = rightPad(asciiToHex(key), 64)` and `fromBytes32 = hexToAscii`,
with `rightPad`, `asciiToHex` and `hexToAscii` taken from `web3-utils`.
The string-level functions are thin wrappers over character-list versions. -/

/-- One lowercase hexadecimal digit character. -/
def hexDigitChar (n : Nat) : Char :=
  if n < 10 then Char.ofNat (48 + n) else Char.ofNat (87 + n)

/-- `code.toString(16)` for character codes (up to 6 hex digits, no
    leading zeros). -/
def natToHex (n : Nat) : List Char :=
  let ds := [n / 1048576 % 16, n / 65536 % 16, n / 4096 % 16,
             n / 256 % 16, n / 16 % 16, n % 16]
  let trimmed := ds.dropWhile (fun d => d = 0)
  if trimmed = [] then ['0'] else trimmed.map hexDigitChar

/-- `n.length < 2 ? '0' + n : n` applied to `code.toString(16)`. -/
def byteHex (n : Nat) : List Char :=
  let h := natToHex n
  if h.length < 2 then '0' :: h else h

/-- `/^0x/i` test on a character list. -/
def hasHexPfx : List Char → Bool
  | '0' :: 'x' :: _ => true
  | '0' :: 'X' :: _ => true
  | _ => false

def isHexDigit (c : Char) : Bool :=
  ('0' ≤ c && c ≤ '9') || ('a' ≤ c && c ≤ 'f') || ('A' ≤ c && c ≤ 'F')

/-- `web3-utils`' `asciiToHex` on character lists: `"0x00"` for the empty
    string, otherwise `0x` followed by each char code as two hex digits. -/
def asciiToHexChars (cs : List Char) : List Char :=
  if cs = [] then ['0', 'x', '0', '0']
  else '0' :: 'x' :: cs.flatMap (fun c => byteHex c.toNat)

/-- `web3-utils`' `rightPad` on character lists (string input, `'0'` sign):
    strip a `0x`/`0X` prefix, pad the body with zeros up to `chars`
    characters, and restore a lowercase `0x` prefix. -/
def rightPadChars (cs : List Char) (chars : Nat) : List Char :=
  let hasPfx := hasHexPfx cs
  let body := if hasPfx then cs.drop 2 else cs
  (if hasPfx then ['0', 'x'] else []) ++ body ++
    List.replicate (chars - body.length) '0'

/-- `web3-utils`' `isHexStrict`: optional leading `-`, then `0x`/`0X`,
    then hex digits only. -/
def isHexStrictChars (cs : List Char) : Bool :=
  let rest := match cs with
    | '-' :: t => t
    | _ => cs
  hasHexPfx rest && (rest.drop 2).all isHexDigit

def hexVal (c : Char) : Nat :=
  if '0' ≤ c && c ≤ '9' then c.toNat - 48
  else if 'a' ≤ c && c ≤ 'f' then c.toNat - 87
  else if 'A' ≤ c && c ≤ 'F' then c.toNat - 55
  else 0

/-- The parse loop of `hexToAscii`: every two hex digits become one
    character code. -/
def hexPairsToChars : List Char → List Char
  | a :: b :: rest => Char.ofNat (16 * hexVal a + hexVal b) :: hexPairsToChars rest
  | [a] => [Char.ofNat (hexVal a)]
  | [] => []

/-- `web3-utils`' `hexToAscii`: throws on a non-hex input, otherwise strips
    a literal `0x` prefix and decodes hex pairs to characters.  Note that it
    does NOT strip zero-byte padding. -/
def hexToAsciiChars (cs : List Char) : Except String (List Char) :=
  if !isHexStrictChars cs then
    .error "The parameter must be a valid HEX string."
  else
    let body := match cs with
      | '0' :: 'x' :: t => t
      | _ => cs
    .ok (hexPairsToChars body)

def asciiToHex (s : String) : String := String.mk (asciiToHexChars s.data)

def rightPad (s : String) (chars : Nat) : String :=
  String.mk (rightPadChars s.data chars)

def hexToAscii (h : String) : Except String String :=
  (hexToAsciiChars h.data).map String.mk

/-- `toBytes32` from `index.js`. -/
def toBytes32 (key : String) : String := rightPad (asciiToHex key) 64

/-- `fromBytes32` from `index.js`. -/
def fromBytes32 (key : String) : Except String String := hexToAscii key

/-- All the per-byte facts the round-trip proof needs, as one decidable
    test: a byte's hex rendering is exactly two hex digits that parse back
    to the byte. -/
def byteHexOk (n : Nat) : Bool :=
  match byteHex n with
  | [a, b] => isHexDigit a && isHexDigit b &&
      (Char.ofNat (16 * hexVal a + hexVal b) == Char.ofNat n)
  | _ => false

deriving instance DecidableEq for Except

set_option maxRecDepth 4000 in
theorem byteHexOk_all : ∀ n, n < 256 → byteHexOk n = true := by decide

theorem hexPairsToChars_flat (l : List Nat) (h : ∀ n ∈ l, n < 256) (rest : List Char) :
    hexPairsToChars (l.flatMap byteHex ++ rest) =
      l.map Char.ofNat ++ hexPairsToChars rest := by
  induction l with
  | nil => simp
  | cons n l ih =>
      have hn : n < 256 := h n (List.mem_cons_self n l)
      have hok := byteHexOk_all n hn
      unfold byteHexOk at hok
      rcases hb : byteHex n with _ | ⟨a, _ | ⟨b, _ | _⟩⟩ <;> rw [hb] at hok <;>
        simp only [Bool.and_eq_true, beq_iff_eq] at hok
      · exact absurd hok (by simp)
      · exact absurd hok (by simp)
      · simp only [List.flatMap_cons, List.map_cons, hb, List.cons_append,
          List.nil_append]
        rw [hexPairsToChars, hok.2]
        rw [ih (fun m hm => h m (List.mem_cons_of_mem n hm))]
      · exact absurd hok (by simp)

theorem byteHex_all_hexDigit (n : Nat) (h : n < 256) :
    (byteHex n).all isHexDigit = true := by
  have hok := byteHexOk_all n h
  unfold byteHexOk at hok
  rcases hb : byteHex n with _ | ⟨a, _ | ⟨b, _ | _⟩⟩ <;> rw [hb] at hok <;>
    simp only [Bool.and_eq_true, beq_iff_eq] at hok
  · exact absurd hok (by simp)
  · exact absurd hok (by simp)
  · simp [List.all_cons, hok.1.1, hok.1.2]
  · exact absurd hok (by simp)

theorem byteHex_length (n : Nat) (h : n < 256) : (byteHex n).length = 2 := by
  have hok := byteHexOk_all n h
  unfold byteHexOk at hok
  rcases hb : byteHex n with _ | ⟨a, _ | ⟨b, _ | _⟩⟩ <;> rw [hb] at hok
  · exact absurd hok (by simp)
  · exact absurd hok (by simp)
  · simp
  · exact absurd hok (by simp)

theorem hexPairsToChars_zeros (m : Nat) :
    hexPairsToChars (List.replicate (2 * m) '0') =
      List.replicate m (Char.ofNat 0) := by
  induction m with
  | zero => simp [hexPairsToChars]
  | succ k ih =>
      have h2 : 2 * (k + 1) = (2 * k) + 1 + 1 := by ring
      rw [h2, List.replicate_succ, List.replicate_succ, hexPairsToChars, ih]
      have h0 : Char.ofNat (16 * hexVal '0' + hexVal '0') = Char.ofNat 0 := by decide
      rw [h0, List.replicate_succ]

theorem flatMap_byteHex_length (l : List Nat) (h : ∀ n ∈ l, n < 256) :
    (l.flatMap byteHex).length = 2 * l.length := by
  induction l with
  | nil => simp
  | cons n t ih =>
      simp only [List.flatMap_cons, List.length_append, List.length_cons]
      rw [byteHex_length n (h n (List.mem_cons_self n t)),
        ih (fun m hm => h m (List.mem_cons_of_mem n hm))]
      ring

theorem flatMap_byteHex_all_hexDigit (l : List Nat) (h : ∀ n ∈ l, n < 256) :
    (l.flatMap byteHex).all isHexDigit = true := by
  induction l with
  | nil => simp
  | cons n t ih =>
      simp only [List.flatMap_cons, List.all_append, Bool.and_eq_true]
      exact ⟨byteHex_all_hexDigit n (h n (List.mem_cons_self n t)),
        ih (fun m hm => h m (List.mem_cons_of_mem n hm))⟩

/-- C7 counterexample: `fromBytes32` does not strip the zero-byte padding
    that `toBytes32` added, so decoding `toBytes32 "ABC"` yields `"ABC"`
    followed by 29 NUL characters, not `"ABC"`. -/
theorem c7_counterexample :
    fromBytes32 (toBytes32 "ABC") =
        Except.ok ("ABC" ++ String.mk (List.replicate 29 (Char.ofNat 0))) ∧
      "ABC" ++ String.mk (List.replicate 29 (Char.ofNat 0)) ≠ "ABC" := by
  constructor
  · decide
  · decide

theorem isHexStrictChars_0x (t : List Char) :
    isHexStrictChars ('0' :: 'x' :: t) = t.all isHexDigit := by
  rfl

theorem hexToAsciiChars_0x (t : List Char) (h : t.all isHexDigit = true) :
    hexToAsciiChars ('0' :: 'x' :: t) = .ok (hexPairsToChars t) := by
  unfold hexToAsciiChars
  rw [isHexStrictChars_0x, h]
  rfl

/-- C7 (amended): for an ASCII string of at most 32 bytes,
    `fromBytes32 (toBytes32 s)` succeeds and returns `s` right-padded with
    NUL characters to exactly 32 characters; it equals `s` itself only
    after stripping that padding. -/
theorem c7_bytes32_roundtrip_padded (s : String)
    (hascii : ∀ c ∈ s.data, c.toNat < 128) (hlen : s.length ≤ 32) :
    fromBytes32 (toBytes32 s) =
      Except.ok (s ++ String.mk (List.replicate (32 - s.length) (Char.ofNat 0))) := by
  have hlen' : s.data.length ≤ 32 := hlen
  have hcodes : ∀ n ∈ s.data.map Char.toNat, n < 256 := by
    intro n hn
    rcases List.mem_map.mp hn with ⟨c, hc, rfl⟩
    exact Nat.lt_trans (hascii c hc) (by norm_num)
  rcases hs : s.data with _ | ⟨c0, cs⟩
  · -- the empty string: toBytes32 "" = "0x00…0" decodes to 32 NULs
    have hempty : s = "" := by
      cases s with
      | mk d =>
          have hd : d = [] := hs
          subst hd
          rfl
    subst hempty
    decide
  · -- non-empty string
    have hflat : s.data.flatMap (fun c => byteHex c.toNat) =
        (s.data.map Char.toNat).flatMap byteHex := by
      rw [List.flatMap_map]
    have hflatlen : ((s.data.map Char.toNat).flatMap byteHex).length =
        2 * s.data.length := by
      rw [flatMap_byteHex_length _ hcodes, List.length_map]
    -- the characters of toBytes32 s
    have hdata : (toBytes32 s).data =
        '0' :: 'x' :: ((s.data.map Char.toNat).flatMap byteHex ++
          List.replicate (64 - 2 * s.data.length) '0') := by
      show (String.mk (rightPadChars (asciiToHex s).data 64)).data = _
      have hne : s.data ≠ [] := by rw [hs]; simp
      have hax : (asciiToHex s).data = '0' :: 'x' ::
          (s.data.map Char.toNat).flatMap byteHex := by
        show asciiToHexChars s.data = _
        unfold asciiToHexChars
        rw [if_neg hne, hflat]
      show rightPadChars (asciiToHex s).data 64 = _
      rw [hax]
      unfold rightPadChars
      simp only [hasHexPfx, if_true, List.drop_succ_cons, List.drop_zero,
        List.length_append, List.cons_append, List.nil_append]
      rw [hflatlen]
    have hallhex : ((s.data.map Char.toNat).flatMap byteHex ++
        List.replicate (64 - 2 * s.data.length) '0').all isHexDigit = true := by
      rw [List.all_append]
      rw [flatMap_byteHex_all_hexDigit _ hcodes]
      simp only [Bool.true_and, List.all_eq_true]
      intro c hc
      rw [List.eq_of_mem_replicate hc]
      decide
    show (hexToAsciiChars (toBytes32 s).data).map String.mk = _
    rw [hdata, hexToAsciiChars_0x _ hallhex]
    have h64 : 64 - 2 * s.data.length = 2 * (32 - s.data.length) := by omega
    rw [h64, hexPairsToChars_flat _ hcodes, hexPairsToChars_zeros]
    have hmap : (s.data.map Char.toNat).map Char.ofNat = s.data := by
      rw [List.map_map]
      have hco : (Char.ofNat ∘ Char.toNat) = id := by
        funext c
        simp [Function.comp, Char.ofNat_toNat]
      rw [hco, List.map_id]
    rw [hmap]
    have hlen2 : s.length = s.data.length := rfl
    simp only [Except.map, hlen2]
    congr 1

/-- C7 witness: the amended round-trip evaluated at `"zBTC"`. -/
theorem c7_witness :
    (∀ c ∈ "zBTC".data, c.toNat < 128) ∧ "zBTC".length ≤ 32 ∧
      fromBytes32 (toBytes32 "zBTC") =
        Except.ok ("zBTC" ++ String.mk (List.replicate 28 (Char.ofNat 0))) :=
  ⟨by decide, by decide, c7_bytes32_roundtrip_padded "zBTC" (by decide) (by decide)⟩

/-! ### The accessor options and data loading

Every accessor takes `({network, useOvm, path, fs, deploymentPath, …})`.
The `path`/`fs` Node modules are modelled by a presence flag and an optional
file map (absolute path → parsed JSON document); the bundled static store
(`data` in `index.js`, i.e. the per-network `publish/deployed` bundles) and
the asset registry (`assets.json`) are explicit parameters, the latter
threaded through calls because `getFeeds` mutates it in place. -/

structure Opts where
  network : String := "mainnet"
  useOvm : Bool := false
  hasPath : Bool := false
  fs : Option (List (String × Value)) := none
  deploymentPath : Option String := none
  skipPopulate : Bool := false
  byContract : Bool := false
deriving Repr, DecidableEq

def DEPLOYMENT_FILENAME : String := "deployment.json"
def SYNTHS_FILENAME : String := "synths.json"
def FEEDS_FILENAME : String := "feeds.json"
def VERSIONS_FILENAME : String := "versions.json"
def FUTURES_MARKETS_FILENAME : String := "futures-markets.json"
def PERPS_V2_MARKETS_FILENAME : String := "perpsv2-markets.json"
def STAKING_REWARDS_FILENAME : String := "rewards.json"
def SHORTING_REWARDS_FILENAME : String := "shorting-rewards.json"

/-- Truthiness of the `deploymentPath` option (an empty string is falsy). -/
def dpTruthy (o : Opts) : Bool :=
  match o.deploymentPath with
  | some dp => dp ≠ ""
  | none => false

/-- `!deploymentPath && (!path || !fs)`: the accessor serves the bundled
    static store rather than reading from disk. -/
def bundledB (o : Opts) : Bool :=
  !dpTruthy o && (!o.hasPath || o.fs.isNone)

/-- JS property-key coercion for the value shapes that occur here
    (array keys, which JS would render as comma-joined element strings,
    never arise in the modelled call paths). -/
def jsKeyStr : Value → String
  | .vStr s => s
  | .vNum n => toString n
  | .vBool b => toString b
  | .vNull => "null"
  | .vUndef => "undefined"
  | .vArr _ => ""
  | .vObj _ => "[object Object]"

/-- `getPathToNetwork`: `path.join(__dirname, 'publish', 'deployed', folder, file)`. -/
def getPathToNetwork (o : Opts) (file : String) : String :=
  "./publish/deployed/" ++ getFolderNameForNetwork o.network o.useOvm ++ "/" ++ file

/-- The on-disk location of a facet file: an explicit `deploymentPath`
    joined with the fixed filename, or the per-network folder. -/
def facetPath (o : Opts) (file : String) : String :=
  match o.deploymentPath with
  | some dp => if dp ≠ "" then dp ++ "/" ++ file else getPathToNetwork o file
  | none => getPathToNetwork o file

def fsLookup (m : List (String × Value)) (p : String) : Option Value :=
  (m.find? (fun q => q.1 = p)).map (fun q => q.2)

/-- Read a facet file from disk: `fs.existsSync` then
    `JSON.parse(fs.readFileSync(...))`, throwing `missingMsg` when the
    file is absent (and a `TypeError` when the `path`/`fs` modules were
    not supplied although the disk branch was taken). -/
def readFacet (o : Opts) (file missingMsg : String) : Except String Value :=
  if !o.hasPath then .error "TypeError: path is undefined"
  else match o.fs with
  | none => .error "TypeError: fs is undefined"
  | some m =>
      match fsLookup m (facetPath o file) with
      | none => .error missingMsg
      | some v => .ok v

/-- `data[getFolderNameForNetwork({network, useOvm})].<field>` (accessing a
    field of an unknown network's bundle throws, as in JS). -/
def bundledFacet (data : Obj) (o : Opts) (field : String) : Except String Value :=
  jsGet (objGet data (getFolderNameForNetwork o.network o.useOvm)) field

/-- `loadDeploymentFile` from `index.js`. -/
def loadDeploymentFile (data : Obj) (o : Opts) : Except String Value :=
  if bundledB o then bundledFacet data o "deployment"
  else readFacet o DEPLOYMENT_FILENAME
    ("Cannot find deployment for network: " ++ o.network ++ ".")

/-- `getTarget` from `index.js`: the whole `targets` mapping, or one entry. -/
def getTarget (data : Obj) (o : Opts) (contract : Value) : Except String Value := do
  let deployment ← loadDeploymentFile data o
  let ts ← jsGet deployment "targets"
  if truthy contract then jsGet ts (jsKeyStr contract)
  else .ok ts

/-- `getSource` from `index.js`: the whole `sources` mapping, or one entry. -/
def getSource (data : Obj) (o : Opts) (contract : Value) : Except String Value := do
  let deployment ← loadDeploymentFile data o
  let ss ← jsGet deployment "sources"
  if truthy contract then jsGet ss (jsKeyStr contract)
  else .ok ss

/-- `getFeeds` from `index.js`.  Note the JS body is
    `memo[asset] = Object.assign(assets[asset], entry)`: the feed entry is
    merged into the shared asset-registry record **in place**, so the
    function returns both the feeds mapping and the (possibly changed)
    registry. -/
def getFeeds (data : Obj) (assets : Obj) (o : Opts) : Except String (Obj × Obj) := do
  let feedsVal ← if bundledB o then bundledFacet data o "feeds"
    else readFacet o FEEDS_FILENAME "Cannot find feeds file."
  foldE (fun (st : Obj × Obj) (kv : String × Value) =>
      match objGet st.2 kv.1 with
      | .vUndef => .error "TypeError: Object.assign called on undefined"
      | .vNull => .error "TypeError: Object.assign called on null"
      | .vObj tgt =>
          let merged := Value.vObj (objAssign tgt kv.2)
          .ok (objSet st.1 kv.1 merged, objSet st.2 kv.1 merged)
      | prim =>
          .ok (objSet st.1 kv.1 (Value.vObj (objAssign (enumProps prim) kv.2)), st.2))
    ([], assets) (enumProps feedsVal)

/-- `Object.assign({}, assets[v.asset], v)`: mix the Asset-registry entry
    for a record's `asset` symbol under the record's own fields. -/
def assetMixin (assets : Obj) (v : Value) : Obj :=
  objAssign (objAssign [] (objGet assets (jsKeyStr (getProp v "asset")))) v

/-- The predicate of `synths.find(({ name }) => name === synth.index)`
    (destructuring a `null`/`undefined` list element throws). -/
def synthNameMatch (istr : String) (el : Value) : Except String Bool :=
  match el with
  | .vUndef => .error "TypeError: cannot destructure undefined"
  | .vNull => .error "TypeError: cannot destructure null"
  | _ => .ok (jsStrictEqP (getProp el "name") (.vStr istr))

/-- `Array.prototype.find` with a callback that can throw. -/
def findE (f : α → Except ε Bool) : List α → Except ε (Option α)
  | [] => .ok none
  | a :: l => do
      if (← f a) then .ok (some a) else findE f l

/-- The `synth.index.map(indexEntry => Object.assign({}, assets[indexEntry.asset], indexEntry))`
    callback (reading `.asset` of a `null`/`undefined` entry throws). -/
def enrichIndexEntry (assets : Obj) (e : Value) : Except String Value :=
  match e with
  | .vUndef => .error "TypeError: cannot read property asset of undefined"
  | .vNull => .error "TypeError: cannot read property asset of null"
  | _ => .ok (Value.vObj (assetMixin assets e))

/-- The first two statements of the `synths.map` callback:
    `synth = Object.assign({}, assets[synth.asset], synth)` and, when
    `feeds[synth.asset]` is truthy, `synth = Object.assign({ feed }, synth)`. -/
def synthStage2 (assets feeds : Obj) (synth : Value) : Obj :=
  let s1 := assetMixin assets synth
  let feedEntry := objGet feeds (jsKeyStr (objGet s1 "asset"))
  if truthy feedEntry then
    objAssign [("feed", getProp feedEntry "feed")] (Value.vObj s1)
  else s1

/-- `(synths.find(…) || {}).index`: the `index` of the found synth, or
    `undefined` when the search failed. -/
def foundIndex : Option Value → Value
  | some el => getProp el "index"
  | none => (.vUndef : Value)

/-- The `typeof synth.index === 'string'` block: replace a string `index`
    placeholder by the `index` of the raw-list synth with that `name`,
    throwing when no such concrete index exists. -/
def synthResolveIndex (synthList : List Value) (s2 : Obj) : Except String Obj :=
  match objGet s2 "index" with
  | .vStr istr => do
      let found ← findE (synthNameMatch istr) synthList
      let index := foundIndex found
      if truthy index then
        .ok (objAssign (objAssign [] (Value.vObj s2)) (Value.vObj [("index", index)]))
      else
        .error ("While processing " ++ jsKeyStr (objGet s2 "name") ++
          ", it's index mapping \"" ++ istr ++
          "\" cannot be found - this is an error in the deployment config and should be fixed")
  | _ => .ok s2

/-- The `if (synth.index) { synth.index = synth.index.map(…) }` block. -/
def synthEnrichIndex (assets : Obj) (s3 : Obj) : Except String Value :=
  match objGet s3 "index" with
  | .vArr entries => do
      let newEntries ← mapE (enrichIndexEntry assets) entries
      .ok (Value.vObj (objSet s3 "index" (.vArr newEntries)))
  | idx =>
      if truthy idx then .error "TypeError: synth.index.map is not a function"
      else .ok (Value.vObj s3)

/-- The body of the `synths.map(synth => …)` callback in `getSynths`:
    asset mixin, feed mixin, string-`index` resolution against the raw
    list, and Asset enrichment of every index constituent. -/
def processSynth (assets feeds : Obj) (synthList : List Value) (synth : Value) :
    Except String Value :=
  match synth with
  | .vUndef => .error "TypeError: cannot read property asset of undefined"
  | .vNull => .error "TypeError: cannot read property asset of null"
  | _ => do
      let s3 ← synthResolveIndex synthList (synthStage2 assets feeds synth)
      synthEnrichIndex assets s3

/-- The synth-list load step of `getSynths` (bundled store or disk file). -/
def loadSynthsVal (data : Obj) (o : Opts) : Except String Value :=
  if bundledB o then bundledFacet data o "synths"
  else readFacet o SYNTHS_FILENAME "Cannot find synth list."

/-- The `synths.map(synth => …)` step of `getSynths` (mapping over a
    non-array throws). -/
def populateSynths (assets feeds : Obj) (synthsVal : Value) : Except String Value :=
  match synthsVal with
  | .vArr sl => do
      let out ← mapE (processSynth assets feeds sl) sl
      .ok (.vArr out)
  | _ => .error "TypeError: synths.map is not a function"

/-- `getSynths` from `index.js`. -/
def getSynths (data : Obj) (assets : Obj) (o : Opts) : Except String (Value × Obj) := do
  let synthsVal ← loadSynthsVal data o
  if o.skipPopulate then .ok (synthsVal, assets)
  else do
    let fa ← getFeeds data assets o
    let out ← populateSynths fa.2 fa.1 synthsVal
    .ok (out, fa.2)

/-! ### Association-list lemmas for `Object.assign` semantics -/

def objHasKey (o : Obj) (k : String) : Bool := o.any (fun p => p.1 = k)

def wfRecord : Value → Prop
  | .vObj o => (o.map Prod.fst).Nodup
  | _ => True

theorem objGet_cons_pos (x : String × Value) (rest : Obj) (k : String) (h : x.1 = k) :
    objGet (x :: rest) k = x.2 := by
  unfold objGet
  rw [List.find?_cons_of_pos _ (by simp [h])]

theorem objGet_cons_neg (x : String × Value) (rest : Obj) (k : String) (h : ¬ x.1 = k) :
    objGet (x :: rest) k = objGet rest k := by
  unfold objGet
  rw [List.find?_cons_of_neg _ (by simp [h])]

theorem objGet_append_left_none (o₁ o₂ : Obj) (k : String)
    (h : ∀ q ∈ o₁, ¬ (q.1 = k)) : objGet (o₁ ++ o₂) k = objGet o₂ k := by
  unfold objGet
  rw [List.find?_append]
  have hfind : o₁.find? (fun p => decide (p.1 = k)) = none := by
    rw [List.find?_eq_none]
    intro x hx
    simp [h x hx]
  rw [hfind]
  simp

theorem objGet_objSet_self (o : Obj) (k : String) (v : Value) :
    objGet (objSet o k v) k = v := by
  unfold objSet
  by_cases hany : o.any (fun p => p.1 = k) = true
  · rw [if_pos hany]
    induction o with
    | nil => simp at hany
    | cons p rest ih =>
        by_cases hp : p.1 = k
        · rw [List.map_cons, if_pos hp, objGet_cons_pos _ _ _ rfl]
        · rw [List.map_cons, if_neg hp, objGet_cons_neg _ _ _ hp]
          simp only [List.any_cons, Bool.or_eq_true, decide_eq_true_eq] at hany
          rcases hany with h1 | h1
          · exact absurd h1 hp
          · exact ih h1
  · rw [if_neg hany]
    have hnone : ∀ q ∈ o, ¬ (q.1 = k) := by
      intro q hq hqk
      exact hany (List.any_eq_true.mpr ⟨q, hq, by simp [hqk]⟩)
    rw [objGet_append_left_none o _ k hnone, objGet_cons_pos _ _ _ rfl]

theorem objGet_objSet_ne (o : Obj) (k k' : String) (v : Value) (h : k' ≠ k) :
    objGet (objSet o k v) k' = objGet o k' := by
  have hk' : ¬ (k = k') := fun he => h he.symm
  unfold objSet
  by_cases hany : o.any (fun p => p.1 = k) = true
  · rw [if_pos hany]
    induction o with
    | nil => simp
    | cons p rest ih =>
        by_cases hp : p.1 = k
        · have hp' : ¬ (p.1 = k') := by rw [hp]; exact hk'
          rw [List.map_cons, if_pos hp, objGet_cons_neg _ _ _ hk',
            objGet_cons_neg _ _ _ hp']
          by_cases hrest : rest.any (fun p => p.1 = k) = true
          · exact ih hrest
          · have hnone : ∀ q ∈ rest, ¬ (q.1 = k) := by
              intro q hq hqk
              exact hrest (List.any_eq_true.mpr ⟨q, hq, by simp [hqk]⟩)
            have hmap : rest.map (fun q => if q.1 = k then (k, v) else q) = rest := by
              conv_rhs => rw [← List.map_id rest]
              exact List.map_congr_left (fun q hq => by rw [if_neg (hnone q hq)]; rfl)
            rw [hmap]
        · rw [List.map_cons, if_neg hp]
          by_cases hp' : p.1 = k'
          · rw [objGet_cons_pos _ _ _ hp', objGet_cons_pos _ _ _ hp']
          · rw [objGet_cons_neg _ _ _ hp', objGet_cons_neg _ _ _ hp']
            simp only [List.any_cons, Bool.or_eq_true, decide_eq_true_eq] at hany
            rcases hany with h1 | h1
            · exact absurd h1 hp
            · exact ih h1
  · rw [if_neg hany]
    induction o with
    | nil =>
        rw [List.nil_append]
        rw [objGet_cons_neg _ _ _ hk']
    | cons p rest ih =>
        rw [List.cons_append]
        by_cases hp' : p.1 = k'
        · rw [objGet_cons_pos _ _ _ hp', objGet_cons_pos _ _ _ hp']
        · rw [objGet_cons_neg _ _ _ hp', objGet_cons_neg _ _ _ hp']
          apply ih
          intro hc
          exact hany (by simp only [List.any_cons, Bool.or_eq_true]; exact Or.inr hc)

theorem objGet_eq_of_not_hasKey (o : Obj) (k : String) (h : objHasKey o k = false) :
    objGet o k = .vUndef := by
  unfold objGet
  have hfind : o.find? (fun p => decide (p.1 = k)) = none := by
    rw [List.find?_eq_none]
    intro x hx
    simp only [decide_eq_true_eq]
    intro hxk
    unfold objHasKey at h
    rw [Bool.eq_false_iff] at h
    exact h (List.any_eq_true.mpr ⟨x, hx, by simp [hxk]⟩)
  simp [hfind]

theorem objHasKey_of_objGet_ne (o : Obj) (k : String) (h : objGet o k ≠ .vUndef) :
    objHasKey o k = true := by
  by_contra hc
  exact h (objGet_eq_of_not_hasKey o k (Bool.eq_false_iff.mpr hc))

theorem objKeys_objSet_nodup (o : Obj) (k : String) (v : Value)
    (h : (o.map Prod.fst).Nodup) : ((objSet o k v).map Prod.fst).Nodup := by
  unfold objSet
  by_cases hany : o.any (fun p => p.1 = k) = true
  · rw [if_pos hany]
    have hkeys : ((o.map (fun p => if p.1 = k then (k, v) else p)).map Prod.fst) =
        o.map Prod.fst := by
      rw [List.map_map]
      apply List.map_congr_left
      intro p _
      by_cases hp : p.1 = k
      · simp [Function.comp, hp]
      · simp [Function.comp, hp]
    rw [hkeys]
    exact h
  · rw [if_neg hany]
    rw [List.map_append, List.nodup_append]
    refine ⟨h, by simp, ?_⟩
    intro a ha
    simp only [List.map_cons, List.map_nil, List.mem_singleton]
    intro hb
    subst hb
    rcases List.mem_map.mp ha with ⟨p, hp, hpk⟩
    exact hany (List.any_eq_true.mpr ⟨p, hp, by simp [hpk]⟩)

theorem objAssign_vObj (t s : Obj) :
    objAssign t (.vObj s) = s.foldl (fun acc p => objSet acc p.1 p.2) t := rfl

theorem objGet_foldlSet (s : Obj) (hnd : (s.map Prod.fst).Nodup) (t : Obj) (k : String) :
    objGet (s.foldl (fun acc p => objSet acc p.1 p.2) t) k =
      if objHasKey s k then objGet s k else objGet t k := by
  induction s generalizing t with
  | nil => simp [objHasKey]
  | cons p rest ih =>
      simp only [List.map_cons, List.nodup_cons] at hnd
      rw [List.foldl_cons, ih hnd.2]
      by_cases hk : p.1 = k
      · have hrest : objHasKey rest k = false := by
          rw [Bool.eq_false_iff]
          intro hc
          rcases List.any_eq_true.mp hc with ⟨q, hq, hqk⟩
          simp only [decide_eq_true_eq] at hqk
          refine hnd.1 ?_
          rw [hk, ← hqk]
          exact List.mem_map_of_mem Prod.fst hq
        rw [hrest]
        simp only [Bool.false_eq_true, if_false]
        have hhas : objHasKey (p :: rest) k = true := by
          unfold objHasKey
          simp [List.any_cons, hk]
        rw [hhas]
        simp only [if_true]
        rw [hk, objGet_objSet_self, objGet_cons_pos _ _ _ hk]
      · have hhk : objHasKey (p :: rest) k = objHasKey rest k := by
          unfold objHasKey
          simp [List.any_cons, hk]
        rw [hhk]
        by_cases hr : objHasKey rest k = true
        · rw [hr]
          simp only [if_true]
          rw [objGet_cons_neg _ _ _ hk]
        · rw [Bool.eq_false_iff.mpr hr]
          simp only [Bool.false_eq_true, if_false]
          exact objGet_objSet_ne t p.1 k p.2 (fun he => hk he.symm)
  
theorem foldlSet_keys_nodup (s : Obj) (t : Obj) (h : (t.map Prod.fst).Nodup) :
    (((s.foldl (fun acc p => objSet acc p.1 p.2) t)).map Prod.fst).Nodup := by
  induction s generalizing t with
  | nil => exact h
  | cons p rest ih =>
      rw [List.foldl_cons]
      exact ih _ (objKeys_objSet_nodup t p.1 p.2 h)

theorem objAssign_keys_nodup (t : Obj) (src : Value) (h : (t.map Prod.fst).Nodup) :
    (((objAssign t src)).map Prod.fst).Nodup :=
  foldlSet_keys_nodup (enumProps src) t h

theorem objGet_objAssign (t s : Obj) (hnd : (s.map Prod.fst).Nodup) (k : String) :
    objGet (objAssign t (.vObj s)) k =
      if objHasKey s k then objGet s k else objGet t k := by
  rw [objAssign_vObj]
  exact objGet_foldlSet s hnd t k

theorem objGet_copy (s : Obj) (hnd : (s.map Prod.fst).Nodup) (k : String) :
    objGet (objAssign [] (.vObj s)) k = objGet s k := by
  rw [objGet_objAssign [] s hnd k]
  by_cases h : objHasKey s k = true
  · simp [h]
  · rw [Bool.eq_false_iff.mpr h]
    simp only [Bool.false_eq_true, if_false]
    rw [objGet_eq_of_not_hasKey s k (Bool.eq_false_iff.mpr h)]
    rfl

/-! ### Lemmas about the sequential map/fold combinators -/

theorem mapE_ok_length {α β ε : Type} (f : α → Except ε β) (l : List α) (out : List β)
    (h : mapE f l = .ok out) : out.length = l.length := by
  induction l generalizing out with
  | nil =>
      unfold mapE at h
      cases h
      rfl
  | cons a t ih =>
      unfold mapE at h
      cases hfa : f a with
      | error e => rw [hfa] at h; simp [Bind.bind, Except.bind] at h
      | ok b =>
          rw [hfa] at h
          simp only [Bind.bind, Except.bind] at h
          cases hm : mapE f t with
          | error e => rw [hm] at h; simp at h
          | ok bs =>
              rw [hm] at h
              cases h
              simp [ih bs hm]

theorem mapE_ok_get {α β ε : Type} (f : α → Except ε β) (l : List α) (out : List β)
    (h : mapE f l = .ok out) :
    ∀ i (hi : i < l.length) (hi' : i < out.length),
      f (l.get ⟨i, hi⟩) = .ok (out.get ⟨i, hi'⟩) := by
  induction l generalizing out with
  | nil => intro i hi; exact absurd hi (by simp)
  | cons a t ih =>
      unfold mapE at h
      cases hfa : f a with
      | error e => rw [hfa] at h; simp [Bind.bind, Except.bind] at h
      | ok b =>
          rw [hfa] at h
          simp only [Bind.bind, Except.bind] at h
          cases hm : mapE f t with
          | error e => rw [hm] at h; simp at h
          | ok bs =>
              rw [hm] at h
              cases h
              intro i hi hi'
              cases i with
              | zero => simpa using hfa
              | succ j =>
                  simp only [List.get_cons_succ]
                  exact ih bs hm j (by simpa using hi) (by simpa using hi')

theorem mapE_ne_ok_of_elem {α β ε : Type} (f : α → Except ε β) (l : List α)
    (i : Nat) (hi : i < l.length) (h : ∀ y, f (l.get ⟨i, hi⟩) ≠ .ok y) :
    ∀ out, mapE f l ≠ .ok out := by
  intro out hok
  have hlen : out.length = l.length := mapE_ok_length f l out hok
  exact h _ (mapE_ok_get f l out hok i hi (hlen ▸ hi))

theorem mapE_ok_map {α β ε : Type} (f : α → Except ε β) (g : α → β) (l : List α)
    (hg : ∀ a ∈ l, ∀ y, f a = .ok y → y = g a) (out : List β)
    (h : mapE f l = .ok out) : out = l.map g := by
  induction l generalizing out with
  | nil => unfold mapE at h; cases h; rfl
  | cons a t ih =>
      unfold mapE at h
      cases hfa : f a with
      | error e => rw [hfa] at h; simp [Bind.bind, Except.bind] at h
      | ok b =>
          rw [hfa] at h
          simp only [Bind.bind, Except.bind] at h
          cases hm : mapE f t with
          | error e => rw [hm] at h; simp at h
          | ok bs =>
              rw [hm] at h
              cases h
              rw [List.map_cons]
              rw [hg a (List.mem_cons_self a t) b hfa,
                ih (fun x hx => hg x (List.mem_cons_of_mem a hx)) bs hm]

theorem enrichIndexEntry_ok (assets : Obj) (e y : Value)
    (h : enrichIndexEntry assets e = .ok y) : y = .vObj (assetMixin assets e) := by
  cases e <;> simp only [enrichIndexEntry] at h <;> cases h <;> rfl

/-- Decompose a successful populated `getSynths` call into its load, feed
    and per-synth mapping steps. -/
theorem getSynths_ok_decomp (data assets : Obj) (o : Opts) (v : Value) (a' : Obj)
    (hok : getSynths data assets o = .ok (v, a'))
    (hskip : o.skipPopulate = false) :
    ∃ sl feeds out, loadSynthsVal data o = .ok (.vArr sl) ∧
      getFeeds data assets o = .ok (feeds, a') ∧
      mapE (processSynth a' feeds sl) sl = .ok out ∧ v = .vArr out := by
  unfold getSynths at hok
  cases hload : loadSynthsVal data o with
  | error e => rw [hload] at hok; simp [Bind.bind, Except.bind] at hok
  | ok sv =>
      rw [hload] at hok
      simp only [Bind.bind, Except.bind, hskip, Bool.false_eq_true, if_false] at hok
      cases hfa : getFeeds data assets o with
      | error e => rw [hfa] at hok; simp at hok
      | ok fa =>
          rw [hfa] at hok
          cases sv with
          | vArr sl =>
              simp only [populateSynths, Bind.bind, Except.bind] at hok
              cases hm : mapE (processSynth fa.2 fa.1 sl) sl with
              | error e => rw [hm] at hok; simp at hok
              | ok out =>
                  rw [hm] at hok
                  have hpair : (Value.vArr out, fa.2) = (v, a') := by
                    injection hok
                  have hv : Value.vArr out = v := congrArg Prod.fst hpair
                  have ha : fa.2 = a' := congrArg Prod.snd hpair
                  subst hv
                  subst ha
                  exact ⟨sl, fa.1, out, rfl, rfl, hm, rfl⟩
          | vUndef => simp [populateSynths] at hok
          | vNull => simp [populateSynths] at hok
          | vBool b => simp [populateSynths] at hok
          | vNum n => simp [populateSynths] at hok
          | vStr s => simp [populateSynths] at hok
          | vObj oo => simp [populateSynths] at hok

/-! ### Per-stage analysis of the `getSynths` mapping callback -/

theorem assetMixin_keys_nodup (assets : Obj) (v : Value) :
    ((assetMixin assets v).map Prod.fst).Nodup :=
  objAssign_keys_nodup _ _ (objAssign_keys_nodup [] _ (by simp))

theorem synthStage2_keys_nodup (assets feeds : Obj) (synth : Value) :
    ((synthStage2 assets feeds synth).map Prod.fst).Nodup := by
  unfold synthStage2
  by_cases htr : truthy (objGet feeds (jsKeyStr (objGet (assetMixin assets synth) "asset"))) = true
  · simp only [htr, if_true]
    exact objAssign_keys_nodup _ _ (by simp)
  · simp only [Bool.eq_false_iff.mpr htr, Bool.false_eq_true, if_false]
    exact assetMixin_keys_nodup assets synth

theorem synthStage2_objGet (assets feeds : Obj) (synth : Value) (k : String)
    (hk : k ≠ "feed") :
    objGet (synthStage2 assets feeds synth) k = objGet (assetMixin assets synth) k := by
  unfold synthStage2
  by_cases htr : truthy (objGet feeds (jsKeyStr (objGet (assetMixin assets synth) "asset"))) = true
  · simp only [htr, if_true]
    rw [objGet_objAssign _ _ (assetMixin_keys_nodup assets synth) k]
    by_cases hh : objHasKey (assetMixin assets synth) k = true
    · simp [hh]
    · rw [Bool.eq_false_iff.mpr hh]
      simp only [Bool.false_eq_true, if_false]
      rw [objGet_eq_of_not_hasKey _ k (Bool.eq_false_iff.mpr hh),
        objGet_cons_neg _ _ _ (fun he => hk he.symm)]
      rfl
  · simp only [Bool.eq_false_iff.mpr htr, Bool.false_eq_true, if_false]

theorem synthStage2_feed (assets feeds : Obj) (synth : Value)
    (htr : truthy (objGet feeds (jsKeyStr (objGet (assetMixin assets synth) "asset"))) = true) :
    objGet (synthStage2 assets feeds synth) "feed" =
      (if objHasKey (assetMixin assets synth) "feed" then
        objGet (assetMixin assets synth) "feed"
      else
        getProp (objGet feeds (jsKeyStr (objGet (assetMixin assets synth) "asset"))) "feed") := by
  unfold synthStage2
  simp only [htr, if_true]
  rw [objGet_objAssign _ _ (assetMixin_keys_nodup assets synth) "feed"]
  by_cases hh : objHasKey (assetMixin assets synth) "feed" = true
  · simp [hh]
  · rw [Bool.eq_false_iff.mpr hh]
    simp only [Bool.false_eq_true, if_false]
    rw [objGet_cons_pos _ _ _ rfl]

theorem processSynth_eq_of_nonnull (assets feeds : Obj) (sl : List Value) (synth : Value)
    (h1 : synth ≠ .vUndef) (h2 : synth ≠ .vNull) :
    processSynth assets feeds sl synth =
      (do
        let s3 ← synthResolveIndex sl (synthStage2 assets feeds synth)
        synthEnrichIndex assets s3) := by
  cases synth
  case vUndef => exact absurd rfl h1
  case vNull => exact absurd rfl h2
  all_goals rfl

theorem processSynth_ok_decomp (assets feeds : Obj) (sl : List Value) (synth out : Value)
    (hok : processSynth assets feeds sl synth = .ok out) :
    ∃ s3, synthResolveIndex sl (synthStage2 assets feeds synth) = .ok s3 ∧
      synthEnrichIndex assets s3 = .ok out := by
  have h1 : synth ≠ .vUndef := by intro he; subst he; simp [processSynth] at hok
  have h2 : synth ≠ .vNull := by intro he; subst he; simp [processSynth] at hok
  rw [processSynth_eq_of_nonnull assets feeds sl synth h1 h2] at hok
  cases hres : synthResolveIndex sl (synthStage2 assets feeds synth) with
  | error e => rw [hres] at hok; simp [Bind.bind, Except.bind] at hok
  | ok s3 =>
      rw [hres] at hok
      simp only [Bind.bind, Except.bind] at hok
      exact ⟨s3, rfl, hok⟩

/-- Rewriting equation for `synthResolveIndex` on a string `index`. -/
theorem synthResolveIndex_eq_str (sl : List Value) (s2 : Obj) (istr : String)
    (hidx : objGet s2 "index" = .vStr istr) :
    synthResolveIndex sl s2 =
      (do
        let found ← findE (synthNameMatch istr) sl
        let index := foundIndex found
        if truthy index then
          .ok (objAssign (objAssign [] (Value.vObj s2)) (Value.vObj [("index", index)]))
        else
          .error ("While processing " ++ jsKeyStr (objGet s2 "name") ++
            ", it's index mapping \"" ++ istr ++
            "\" cannot be found - this is an error in the deployment config and should be fixed")) := by
  unfold synthResolveIndex
  rw [hidx]

/-- Rewriting equation for `synthResolveIndex` on a non-string `index`. -/
theorem synthResolveIndex_eq_nonstr (sl : List Value) (s2 : Obj)
    (h : ∀ s, objGet s2 "index" ≠ .vStr s) :
    synthResolveIndex sl s2 = .ok s2 := by
  unfold synthResolveIndex
  cases hidx : objGet s2 "index" with
  | vStr s => exact absurd hidx (h s)
  | vUndef => rfl
  | vNull => rfl
  | vBool b => rfl
  | vNum n => rfl
  | vArr l => rfl
  | vObj oo => rfl

theorem synthResolveIndex_str_ok (sl : List Value) (s2 : Obj)
    (hnd : (s2.map Prod.fst).Nodup) (istr : String)
    (hidx : objGet s2 "index" = .vStr istr) (s3 : Obj)
    (hok : synthResolveIndex sl s2 = .ok s3) :
    ∃ el, findE (synthNameMatch istr) sl = .ok (some el) ∧
      truthy (getProp el "index") = true ∧
      objGet s3 "index" = getProp el "index" ∧
      ∀ k, k ≠ "index" → objGet s3 k = objGet s2 k := by
  rw [synthResolveIndex_eq_str sl s2 istr hidx] at hok
  cases hfind : findE (synthNameMatch istr) sl with
  | error e => rw [hfind] at hok; simp [Bind.bind, Except.bind] at hok
  | ok fnd =>
      rw [hfind] at hok
      simp only [Bind.bind, Except.bind] at hok
      cases fnd with
      | none => simp [foundIndex, truthy] at hok
      | some el =>
          simp only [foundIndex] at hok
          by_cases htri : truthy (getProp el "index") = true
          · rw [htri] at hok
            simp only [if_true] at hok
            cases hok
            refine ⟨el, rfl, htri, ?_, ?_⟩
            · rw [objGet_objAssign _ [("index", getProp el "index")] (by simp) "index"]
              have hhk : objHasKey [("index", getProp el "index")] "index" = true := by
                unfold objHasKey
                simp
              rw [hhk, if_pos rfl]
              exact objGet_cons_pos _ _ _ rfl
            · intro k hk
              rw [objGet_objAssign _ [("index", getProp el "index")] (by simp) k]
              have hhk : objHasKey [("index", getProp el "index")] k = false := by
                have hne : ¬ ("index" = k) := fun he => hk he.symm
                unfold objHasKey
                simp [hne]
              rw [hhk]
              simp only [Bool.false_eq_true, if_false]
              exact objGet_copy s2 hnd k
          · rw [Bool.eq_false_iff.mpr htri] at hok
            simp at hok

theorem synthResolveIndex_str_err (sl : List Value) (s2 : Obj) (istr : String)
    (hidx : objGet s2 "index" = .vStr istr) (fnd : Option Value)
    (hfind : findE (synthNameMatch istr) sl = .ok fnd)
    (hbad : fnd = none ∨ ∃ el, fnd = some el ∧ truthy (getProp el "index") = false) :
    ∀ s3, synthResolveIndex sl s2 ≠ .ok s3 := by
  intro s3 hok
  rw [synthResolveIndex_eq_str sl s2 istr hidx, hfind] at hok
  simp only [Bind.bind, Except.bind] at hok
  rcases hbad with h | ⟨el, hel, htri⟩
  · subst h
    simp [foundIndex, truthy] at hok
  · subst hel
    simp only [foundIndex, htri] at hok
    simp at hok

theorem synthResolveIndex_preserves (sl : List Value) (s2 : Obj)
    (hnd : (s2.map Prod.fst).Nodup) (s3 : Obj)
    (hok : synthResolveIndex sl s2 = .ok s3) (k : String) (hk : k ≠ "index") :
    objGet s3 k = objGet s2 k := by
  by_cases hstr : ∃ istr, objGet s2 "index" = .vStr istr
  · obtain ⟨istr, hidx⟩ := hstr
    obtain ⟨el, _, _, _, hpres⟩ := synthResolveIndex_str_ok sl s2 hnd istr hidx s3 hok
    exact hpres k hk
  · push_neg at hstr
    rw [synthResolveIndex_eq_nonstr sl s2 hstr] at hok
    cases hok
    rfl

/-- Rewriting equation for `synthEnrichIndex` on an array `index`. -/
theorem synthEnrichIndex_eq_arr (assets : Obj) (s3 : Obj) (entries : List Value)
    (hidx : objGet s3 "index" = .vArr entries) :
    synthEnrichIndex assets s3 =
      (do
        let newEntries ← mapE (enrichIndexEntry assets) entries
        .ok (Value.vObj (objSet s3 "index" (.vArr newEntries)))) := by
  unfold synthEnrichIndex
  rw [hidx]

/-- Rewriting equation for `synthEnrichIndex` on a non-array `index`. -/
theorem synthEnrichIndex_eq_nonarr (assets : Obj) (s3 : Obj)
    (harr : ∀ l, objGet s3 "index" ≠ .vArr l) :
    synthEnrichIndex assets s3 =
      (if truthy (objGet s3 "index") then
        .error "TypeError: synth.index.map is not a function"
      else .ok (Value.vObj s3)) := by
  unfold synthEnrichIndex
  cases hidx : objGet s3 "index" with
  | vArr l => exact absurd hidx (harr l)
  | vUndef => rfl
  | vNull => rfl
  | vBool b => rfl
  | vNum n => rfl
  | vStr s => rfl
  | vObj oo => rfl

theorem synthEnrichIndex_arr (assets : Obj) (s3 : Obj) (entries : List Value) (out : Value)
    (hidx : objGet s3 "index" = .vArr entries)
    (hok : synthEnrichIndex assets s3 = .ok out) :
    getProp out "index" = .vArr (entries.map (fun e => Value.vObj (assetMixin assets e))) ∧
      ∀ k, k ≠ "index" → getProp out k = objGet s3 k := by
  rw [synthEnrichIndex_eq_arr assets s3 entries hidx] at hok
  cases hm : mapE (enrichIndexEntry assets) entries with
  | error e => rw [hm] at hok; simp [Bind.bind, Except.bind] at hok
  | ok newE =>
      rw [hm] at hok
      simp only [Bind.bind, Except.bind] at hok
      cases hok
      have hmap : newE = entries.map (fun e => Value.vObj (assetMixin assets e)) :=
        mapE_ok_map _ _ entries (fun a _ y hy => enrichIndexEntry_ok assets a y hy) newE hm
      constructor
      · show objGet (objSet s3 "index" (.vArr newE)) "index" = _
        rw [objGet_objSet_self, hmap]
      · intro k hk
        show objGet (objSet s3 "index" (.vArr newE)) k = _
        exact objGet_objSet_ne s3 "index" k _ hk

theorem synthEnrichIndex_err_nonarr (assets : Obj) (s3 : Obj)
    (harr : ∀ l, objGet s3 "index" ≠ .vArr l)
    (htr : truthy (objGet s3 "index") = true) :
    ∀ out, synthEnrichIndex assets s3 ≠ .ok out := by
  intro out hok
  rw [synthEnrichIndex_eq_nonarr assets s3 harr, htr] at hok
  simp at hok

theorem synthEnrichIndex_preserves (assets : Obj) (s3 : Obj) (out : Value)
    (hok : synthEnrichIndex assets s3 = .ok out) (k : String) (hk : k ≠ "index") :
    getProp out k = objGet s3 k := by
  by_cases harr : ∃ entries, objGet s3 "index" = .vArr entries
  · obtain ⟨entries, hidx⟩ := harr
    exact (synthEnrichIndex_arr assets s3 entries out hidx hok).2 k hk
  · push_neg at harr
    rw [synthEnrichIndex_eq_nonarr assets s3 harr] at hok
    by_cases htr : truthy (objGet s3 "index") = true
    · rw [htr] at hok
      simp at hok
    · rw [Bool.eq_false_iff.mpr htr] at hok
      simp only [Bool.false_eq_true, if_false] at hok
      cases hok
      exact rfl

theorem processSynth_index_ok (assets feeds : Obj) (sl : List Value) (rec : Obj)
    (hnd : (rec.map Prod.fst).Nodup) (istr : String)
    (hidx : objGet rec "index" = .vStr istr) (out : Value)
    (hok : processSynth assets feeds sl (.vObj rec) = .ok out) :
    ∃ el entries, findE (synthNameMatch istr) sl = .ok (some el) ∧
      getProp el "index" = .vArr entries ∧
      getProp out "index" = .vArr (entries.map (fun e => Value.vObj (assetMixin assets e))) := by
  obtain ⟨s3, hres, henr⟩ := processSynth_ok_decomp assets feeds sl _ out hok
  have hs1idx : objGet (assetMixin assets (Value.vObj rec)) "index" = .vStr istr := by
    unfold assetMixin
    rw [objGet_objAssign _ rec hnd "index"]
    have hhk : objHasKey rec "index" = true :=
      objHasKey_of_objGet_ne rec "index" (by rw [hidx]; simp)
    rw [hhk, if_pos rfl, hidx]
  have hs2idx : objGet (synthStage2 assets feeds (Value.vObj rec)) "index" = .vStr istr := by
    rw [synthStage2_objGet assets feeds _ "index" (by decide), hs1idx]
  obtain ⟨el, hfind, htri, hs3idx, _⟩ :=
    synthResolveIndex_str_ok sl _ (synthStage2_keys_nodup assets feeds _) istr hs2idx s3 hres
  cases hel : getProp el "index" with
  | vArr entries =>
      have harr := synthEnrichIndex_arr assets s3 entries out (by rw [hs3idx, hel]) henr
      exact ⟨el, entries, hfind, hel, harr.1⟩
  | vUndef => rw [hel] at htri; simp [truthy] at htri
  | vNull => rw [hel] at htri; simp [truthy] at htri
  | vBool b =>
      refine absurd henr (synthEnrichIndex_err_nonarr assets s3 ?_ ?_ out)
      · intro l
        rw [hs3idx, hel]
        intro hc
        cases hc
      · rw [hs3idx]
        exact htri
  | vNum n =>
      refine absurd henr (synthEnrichIndex_err_nonarr assets s3 ?_ ?_ out)
      · intro l
        rw [hs3idx, hel]
        intro hc
        cases hc
      · rw [hs3idx]
        exact htri
  | vStr s =>
      refine absurd henr (synthEnrichIndex_err_nonarr assets s3 ?_ ?_ out)
      · intro l
        rw [hs3idx, hel]
        intro hc
        cases hc
      · rw [hs3idx]
        exact htri
  | vObj oo =>
      refine absurd henr (synthEnrichIndex_err_nonarr assets s3 ?_ ?_ out)
      · intro l
        rw [hs3idx, hel]
        intro hc
        cases hc
      · rw [hs3idx]
        exact htri

theorem processSynth_index_err (assets feeds : Obj) (sl : List Value) (rec : Obj)
    (hnd : (rec.map Prod.fst).Nodup) (istr : String)
    (hidx : objGet rec "index" = .vStr istr) (fnd : Option Value)
    (hfind : findE (synthNameMatch istr) sl = .ok fnd)
    (hbad : fnd = none ∨ ∃ el, fnd = some el ∧ truthy (getProp el "index") = false) :
    ∀ y, processSynth assets feeds sl (.vObj rec) ≠ .ok y := by
  intro y hok
  obtain ⟨s3, hres, _⟩ := processSynth_ok_decomp assets feeds sl _ y hok
  have hs1idx : objGet (assetMixin assets (Value.vObj rec)) "index" = .vStr istr := by
    unfold assetMixin
    rw [objGet_objAssign _ rec hnd "index"]
    have hhk : objHasKey rec "index" = true :=
      objHasKey_of_objGet_ne rec "index" (by rw [hidx]; simp)
    rw [hhk, if_pos rfl, hidx]
  have hs2idx : objGet (synthStage2 assets feeds (Value.vObj rec)) "index" = .vStr istr := by
    rw [synthStage2_objGet assets feeds _ "index" (by decide), hs1idx]
  exact synthResolveIndex_str_err sl _ istr hs2idx fnd hfind hbad s3 hres

theorem processSynth_feed (assets feeds : Obj) (sl : List Value) (synth out : Value)
    (hok : processSynth assets feeds sl synth = .ok out)
    (htr : truthy (objGet feeds (jsKeyStr (objGet (assetMixin assets synth) "asset"))) = true) :
    getProp out "feed" =
      (if objHasKey (assetMixin assets synth) "feed" then
        objGet (assetMixin assets synth) "feed"
      else
        getProp (objGet feeds (jsKeyStr (objGet (assetMixin assets synth) "asset"))) "feed") := by
  obtain ⟨s3, hres, henr⟩ := processSynth_ok_decomp assets feeds sl synth out hok
  rw [synthEnrichIndex_preserves assets s3 out henr "feed" (by decide),
    synthResolveIndex_preserves sl _ (synthStage2_keys_nodup assets feeds synth) s3 hres
      "feed" (by decide),
    synthStage2_feed assets feeds synth htr]

theorem getProp_index_vStr_vObj (v : Value) (s : String)
    (h : getProp v "index" = .vStr s) : ∃ rec, v = .vObj rec := by
  cases v with
  | vObj rec => exact ⟨rec, rfl⟩
  | vUndef => simp [getProp] at h
  | vNull => simp [getProp] at h
  | vBool b => simp [getProp] at h
  | vNum n => simp [getProp] at h
  | vStr s2 =>
      simp only [getProp] at h
      rw [show strToNat? "index" = none from by decide] at h
      simp at h
  | vArr l =>
      simp only [getProp] at h
      rw [show strToNat? "index" = none from by decide] at h
      simp at h

/-! ### C1, C3, C4 -/

/-- C1: for every record of the loaded synth list whose `index` is a
    string, the populated output at the same position carries instead the
    `index` array of the first raw-list synth whose `name` equals that
    string, with every index constituent shallow-merged over its Asset
    registry entry (`Object.assign({}, assets[e.asset], e)`, entry fields
    winning); and when the search finds no synth with a truthy `index`,
    `getSynths` throws instead of returning data. -/
theorem c1_index_resolution :
    (∀ (data assets : Obj) (o : Opts) (a' : Obj) (sl out : List Value)
       (i : Nat) (istr : String) (hi : i < sl.length),
       getSynths data assets o = .ok (.vArr out, a') →
       o.skipPopulate = false →
       loadSynthsVal data o = .ok (.vArr sl) →
       wfRecord (sl.get ⟨i, hi⟩) →
       getProp (sl.get ⟨i, hi⟩) "index" = .vStr istr →
       ∃ (_ : i < out.length), ∃ el entries,
         findE (synthNameMatch istr) sl = .ok (some el) ∧
         getProp el "index" = .vArr entries ∧
         (∀ (hi' : i < out.length),
           getProp (out.get ⟨i, hi'⟩) "index" =
             .vArr (entries.map (fun e => Value.vObj (assetMixin a' e))))) ∧
    (∀ (data assets : Obj) (o : Opts) (sl : List Value) (i : Nat) (istr : String)
       (hi : i < sl.length) (fnd : Option Value) (feeds a' : Obj),
       o.skipPopulate = false →
       loadSynthsVal data o = .ok (.vArr sl) →
       getFeeds data assets o = .ok (feeds, a') →
       wfRecord (sl.get ⟨i, hi⟩) →
       getProp (sl.get ⟨i, hi⟩) "index" = .vStr istr →
       findE (synthNameMatch istr) sl = .ok fnd →
       (fnd = none ∨ ∃ el, fnd = some el ∧ truthy (getProp el "index") = false) →
       ∀ res, getSynths data assets o ≠ .ok res) := by
  constructor
  · intro data assets o a' sl out i istr hi hok hskip hload hwf hpidx
    obtain ⟨sl', feeds, outl, hload', hfeeds, hmap, hv⟩ :=
      getSynths_ok_decomp data assets o _ a' hok hskip
    rw [hload'] at hload
    have hsl : sl = sl' := by
      injection hload with h1
      injection h1 with h2
      exact h2.symm
    subst hsl
    have hout : out = outl := by
      injection hv
    subst hout
    have hi' : i < out.length := by
      rw [mapE_ok_length _ _ _ hmap]
      exact hi
    have hps := mapE_ok_get _ _ _ hmap i hi hi'
    obtain ⟨rec, hrec⟩ := getProp_index_vStr_vObj _ istr hpidx
    rw [hrec] at hps hwf hpidx
    have hnd : (rec.map Prod.fst).Nodup := hwf
    have hidx : objGet rec "index" = .vStr istr := hpidx
    obtain ⟨el, entries, hfind, helidx, houtidx⟩ :=
      processSynth_index_ok a' feeds sl rec hnd istr hidx _ hps
    refine ⟨hi', el, entries, hfind, helidx, ?_⟩
    intro hi''
    exact houtidx
  · intro data assets o sl i istr hi fnd feeds a' hskip hload hfeeds hwf hpidx hfind hbad res hok
    obtain ⟨v, a2⟩ := res
    obtain ⟨sl', feeds', outl, hload', hfeeds', hmap, hv⟩ :=
      getSynths_ok_decomp data assets o v a2 hok hskip
    rw [hload'] at hload
    have hsl : sl = sl' := by
      injection hload with h1
      injection h1 with h2
      exact h2.symm
    subst hsl
    rw [hfeeds'] at hfeeds
    have hpair : (feeds', a2) = (feeds, a') := by
      injection hfeeds
    have hf : feeds = feeds' := (congrArg Prod.fst hpair).symm
    subst hf
    have ha : a' = a2 := (congrArg Prod.snd hpair).symm
    subst ha
    obtain ⟨rec, hrec⟩ := getProp_index_vStr_vObj _ istr hpidx
    have hnd : (rec.map Prod.fst).Nodup := by rw [hrec] at hwf; exact hwf
    have hidx : objGet rec "index" = .vStr istr := by rw [hrec] at hpidx; exact hpidx
    refine mapE_ne_ok_of_elem _ sl i hi ?_ outl hmap
    rw [hrec]
    exact processSynth_index_err a' feeds sl rec hnd istr hidx fnd hfind hbad

instance : ∀ v : Value, Decidable (wfRecord v)
  | .vUndef => inferInstanceAs (Decidable True)
  | .vNull => inferInstanceAs (Decidable True)
  | .vBool _ => inferInstanceAs (Decidable True)
  | .vNum _ => inferInstanceAs (Decidable True)
  | .vStr _ => inferInstanceAs (Decidable True)
  | .vArr _ => inferInstanceAs (Decidable True)
  | .vObj o => inferInstanceAs (Decidable ((o.map Prod.fst).Nodup))

def c1wSl : List Value :=
  [.vObj [("name", .vStr "zDEFI"), ("asset", .vStr "DEFI"),
     ("index", .vArr [.vObj [("asset", .vStr "BTC"), ("units", .vNum 1)]])],
   .vObj [("name", .vStr "iDEFI"), ("asset", .vStr "DEFI"), ("index", .vStr "zDEFI")]]

def c1wData : Obj := [("mainnet", .vObj [("synths", .vArr c1wSl), ("feeds", .vObj [])])]

def c1wAssets : Obj := [("BTC", .vObj [("name", .vStr "Bitcoin")]), ("DEFI", .vObj [])]

def c1wOut : List Value :=
  [.vObj [("name", .vStr "zDEFI"), ("asset", .vStr "DEFI"),
     ("index", .vArr [.vObj [("name", .vStr "Bitcoin"), ("asset", .vStr "BTC"),
       ("units", .vNum 1)]])],
   .vObj [("name", .vStr "iDEFI"), ("asset", .vStr "DEFI"),
     ("index", .vArr [.vObj [("name", .vStr "Bitcoin"), ("asset", .vStr "BTC"),
       ("units", .vNum 1)]])]]

/-- C1 witness: the string-index synth `iDEFI` resolved against `zDEFI` in
    a concrete bundle. -/
theorem c1_witness :
    ∃ (_ : 1 < c1wOut.length), ∃ el entries,
      findE (synthNameMatch "zDEFI") c1wSl = .ok (some el) ∧
      getProp el "index" = .vArr entries ∧
      (∀ (hi' : 1 < c1wOut.length),
        getProp (c1wOut.get ⟨1, hi'⟩) "index" =
          .vArr (entries.map (fun e => Value.vObj (assetMixin c1wAssets e)))) :=
  c1_index_resolution.1 c1wData c1wAssets {} c1wAssets c1wSl c1wOut 1 "zDEFI"
    (by decide) (by decide) rfl (by decide) (by decide) (by decide)

def c3assets : Obj := [("BTC", .vObj [])]

def c3data : Obj :=
  [("mainnet", .vObj [("feeds", .vObj [("BTC", .vObj [("feed", .vStr "0xY")])]),
     ("synths", .vArr [.vObj [("name", .vStr "zBTC"), ("asset", .vStr "BTC"),
       ("feed", .vStr "0xX")]])])]

/-- C3 counterexample: the feeds mapping assigns feed `0xY` to asset `BTC`,
    but the synth record's own `feed` (`0xX`) survives in the output —
    `Object.assign({ feed }, synth)` lets the record override the Feed
    side, so the Feed entry's value does not win. -/
theorem c3_counterexample :
    getSynths c3data c3assets {} =
      .ok (.vArr [.vObj [("feed", .vStr "0xX"), ("name", .vStr "zBTC"),
            ("asset", .vStr "BTC")]],
           [("BTC", .vObj [("feed", .vStr "0xY")])]) ∧
      getProp (Value.vObj [("feed", .vStr "0xX"), ("name", .vStr "zBTC"),
        ("asset", .vStr "BTC")]) "feed" ≠ .vStr "0xY" := by
  constructor
  · decide
  · decide

/-- C3 (amended): the Feed entry's `feed` acts only as a default — when the
    asset-merged record already owns a `feed` field the record's value is
    kept, and the Feed entry's `feed` shows up exactly when the record owns
    none (for all other fields the record wins over registry defaults, as
    embodied in `assetMixin`). -/
theorem c3_feed_is_default :
    ∀ (data assets : Obj) (o : Opts) (a' feeds : Obj) (sl out : List Value)
      (i : Nat) (hi : i < sl.length),
      getSynths data assets o = .ok (.vArr out, a') →
      o.skipPopulate = false →
      loadSynthsVal data o = .ok (.vArr sl) →
      getFeeds data assets o = .ok (feeds, a') →
      truthy (objGet feeds (jsKeyStr (objGet (assetMixin a' (sl.get ⟨i, hi⟩)) "asset"))) = true →
      ∃ (_ : i < out.length),
        ∀ (hi' : i < out.length),
          getProp (out.get ⟨i, hi'⟩) "feed" =
            (if objHasKey (assetMixin a' (sl.get ⟨i, hi⟩)) "feed" then
              objGet (assetMixin a' (sl.get ⟨i, hi⟩)) "feed"
            else
              getProp (objGet feeds (jsKeyStr (objGet (assetMixin a' (sl.get ⟨i, hi⟩)) "asset")))
                "feed") := by
  intro data assets o a' feeds sl out i hi hok hskip hload hfeeds htr
  obtain ⟨sl', feeds', outl, hload', hfeeds', hmap, hv⟩ :=
    getSynths_ok_decomp data assets o _ a' hok hskip
  rw [hload'] at hload
  have hsl : sl = sl' := by
    injection hload with h1
    injection h1 with h2
    exact h2.symm
  subst hsl
  rw [hfeeds'] at hfeeds
  have hpair : (feeds', a') = (feeds, a') := by
    injection hfeeds
  have hf : feeds = feeds' := (congrArg Prod.fst hpair).symm
  subst hf
  have hout : out = outl := by
    injection hv
  subst hout
  have hi' : i < out.length := by
    rw [mapE_ok_length _ _ _ hmap]
    exact hi
  have hps := mapE_ok_get _ _ _ hmap i hi hi'
  refine ⟨hi', ?_⟩
  intro hi''
  exact processSynth_feed a' feeds sl _ _ hps htr

def c3wAssets : Obj := [("BTC", .vObj [("sign", .vStr "₿")])]

def c3wData : Obj :=
  [("mainnet", .vObj [("feeds", .vObj [("BTC", .vObj [("feed", .vStr "0xF")])]),
     ("synths", .vArr [.vObj [("name", .vStr "zBTC"), ("asset", .vStr "BTC")]])])]

def c3wSl : List Value := [.vObj [("name", .vStr "zBTC"), ("asset", .vStr "BTC")]]

/-- The asset registry after the `getFeeds` call inside `getSynths` merged
    the feed entry into it. -/
def c3wReg : Obj := [("BTC", .vObj [("sign", .vStr "₿"), ("feed", .vStr "0xF")])]

def c3wOut : List Value :=
  [.vObj [("feed", .vStr "0xF"), ("sign", .vStr "₿"), ("name", .vStr "zBTC"),
    ("asset", .vStr "BTC")]]

/-- C3 witness: a record without its own `feed` picks up the Feed entry's
    value in a concrete bundle. -/
theorem c3_witness :
    ∃ (_ : 0 < c3wOut.length),
      ∀ (hi' : 0 < c3wOut.length),
        getProp (c3wOut.get ⟨0, hi'⟩) "feed" =
          (if objHasKey (assetMixin c3wReg (c3wSl.get ⟨0, by decide⟩)) "feed" then
            objGet (assetMixin c3wReg (c3wSl.get ⟨0, by decide⟩)) "feed"
          else
            getProp (objGet c3wReg
              (jsKeyStr (objGet (assetMixin c3wReg (c3wSl.get ⟨0, by decide⟩)) "asset")))
              "feed") :=
  c3_feed_is_default c3wData c3wAssets {} c3wReg c3wReg c3wSl c3wOut 0 (by decide)
    (by decide) rfl (by decide) (by decide) (by decide)

def c4assets : Obj := [("BTC", .vObj [("name", .vStr "Bitcoin")])]

def c4data : Obj :=
  [("mainnet", .vObj [("feeds", .vObj [("BTC", .vObj [("feed", .vStr "0xFEED")])])]),
   ("testnet", .vObj [("feeds", .vObj []),
     ("synths", .vArr [.vObj [("name", .vStr "zBTC"), ("asset", .vStr "BTC")]])])]

def c4assetsAfter : Obj :=
  [("BTC", .vObj [("name", .vStr "Bitcoin"), ("feed", .vStr "0xFEED")])]

/-- C4: `getFeeds` mutates the shared asset registry —
    `memo[asset] = Object.assign(assets[asset], entry)` merges each feed
    entry into the registry record in place, so the registry differs after
    the call, and a later `getSynths` for another network (whose own feeds
    file has no entry for the asset) returns different data than it would
    have before the mainnet `getFeeds` call. -/
theorem c4_registry_mutation :
    getFeeds c4data c4assets {} = .ok (c4assetsAfter, c4assetsAfter) ∧
      c4assetsAfter ≠ c4assets ∧
      getSynths c4data c4assetsAfter { network := "testnet" } ≠
        getSynths c4data c4assets { network := "testnet" } := by
  refine ⟨by decide, by decide, by decide⟩

/-! ### Futures / perps markets, rewards and versions accessors -/

/-- Disk load for the facets that degrade to a default when the override
    file is absent (futures/perps markets, staking/shorting rewards). -/
def readFacetOrDefault (o : Opts) (file : String) (dflt : Value) : Except String Value :=
  if !o.hasPath then .error "TypeError: path is undefined"
  else match o.fs with
  | none => .error "TypeError: fs is undefined"
  | some m =>
      match fsLookup m (facetPath o file) with
      | none => .ok dflt
      | some v => .ok v

/-- The futures/perps `markets.map` callback: for the legacy asset keys in
    `adjList` strip the leading character before the Asset-registry join
    (`Object.assign({}, assets[assetKey], market)`). -/
def marketAssetMixin (assets : Obj) (adjList : List String) (m : Value) :
    Except String Value :=
  match m with
  | .vUndef => .error "TypeError: cannot read property asset of undefined"
  | .vNull => .error "TypeError: cannot read property asset of null"
  | _ =>
      let assetV := getProp m "asset"
      let assetKey := match assetV with
        | .vStr a => if adjList.contains a then Value.vStr (jsDrop a 1) else assetV
        | _ => assetV
      .ok (Value.vObj (objAssign (objAssign [] (objGet assets (jsKeyStr assetKey))) m))

/-- `getFuturesMarkets` from `index.js`. -/
def getFuturesMarkets (data assets : Obj) (o : Opts) : Except String Value := do
  let fmRaw ← (if bundledB o then bundledFacet data o "futuresMarkets"
    else Except.map (fun v => if truthy v then v else .vArr [])
      (readFacetOrDefault o FUTURES_MARKETS_FILENAME (.vArr [])))
  match fmRaw with
  | .vArr l => do
      let out ← mapE (marketAssetMixin assets ["zBTC", "zETH", "zLINK"]) l
      .ok (.vArr out)
  | _ => .error "TypeError: futuresMarkets.map is not a function"

/-- `getPerpsMarkets` from `index.js`. -/
def getPerpsMarkets (data assets : Obj) (o : Opts) : Except String Value := do
  let pmRaw ← (if bundledB o then bundledFacet data o "perpsv2Markets"
    else Except.map (fun v => if truthy v then v else .vArr [])
      (readFacetOrDefault o PERPS_V2_MARKETS_FILENAME (.vArr [])))
  match pmRaw with
  | .vArr l => do
      let out ← mapE (marketAssetMixin assets ["zBTC", "zETH"]) l
      .ok (.vArr out)
  | _ => .error "TypeError: perpsMarkets.map is not a function"

/-- `getStakingRewards` from `index.js`: returns `[]` when the override
    file is absent. -/
def getStakingRewards (data : Obj) (o : Opts) : Except String Value :=
  if bundledB o then bundledFacet data o "rewards"
  else readFacetOrDefault o STAKING_REWARDS_FILENAME (.vArr [])

/-- `getShortingRewards` from `index.js`: returns `[]` when the override
    file is absent. -/
def getShortingRewards (data : Obj) (o : Opts) : Except String Value :=
  if bundledB o then bundledFacet data o "shorting-rewards"
  else readFacetOrDefault o SHORTING_REWARDS_FILENAME (.vArr [])

/-- The `byContract` re-indexing of `getVersions`. -/
def versionsByContract (versions : Value) : Except String Obj :=
  foldE (fun memo (kv : String × Value) =>
      match kv.2 with
      | .vUndef => .error "TypeError: cannot destructure undefined"
      | .vNull => .error "TypeError: cannot destructure null"
      | v =>
          (match getProp v "contracts" with
           | .vUndef => .error "TypeError: Object.entries called on undefined"
           | .vNull => .error "TypeError: Object.entries called on null"
           | c =>
              foldE (fun memo2 (ce : String × Value) =>
                  match (if truthy (objGet memo2 ce.1) then objGet memo2 ce.1
                         else Value.vArr []) with
                  | .vArr l =>
                      .ok (objSet memo2 ce.1 (.vArr (l ++ [Value.vObj (objAssign
                        [("tag", getProp v "tag"), ("release", getProp v "release"),
                         ("date", getProp v "date"), ("commit", getProp v "commit"),
                         ("block", getProp v "block")] ce.2)])))
                  | _ => .error "TypeError: push is not a function")
                memo (enumProps c)))
    [] (enumProps versions)

/-- `getVersions` from `index.js`. -/
def getVersions (data : Obj) (o : Opts) : Except String Value := do
  let versions ← if bundledB o then bundledFacet data o "versions"
    else readFacet o VERSIONS_FILENAME "Cannot find versions for network."
  if o.byContract then do
    let m ← versionsByContract versions
    .ok (.vObj m)
  else .ok versions

/-! ### C5: the missing-file asymmetry -/

/-- C5: with an explicit on-disk location whose facet file is absent,
    `getSynths`, `getFeeds`, `loadDeploymentFile` and `getVersions` throw,
    while `getFuturesMarkets`, `getPerpsMarkets`, `getStakingRewards` and
    `getShortingRewards` return the empty list — for every network, every
    deployment path and every file map. -/
theorem c5_missing_file_asymmetry :
    ∀ (data assets : Obj) (o : Opts) (dp : String) (m : List (String × Value)),
      o.deploymentPath = some dp → dp ≠ "" → o.hasPath = true → o.fs = some m →
      ((fsLookup m (dp ++ "/" ++ SYNTHS_FILENAME) = none →
        ∃ e, getSynths data assets o = .error e) ∧
      (fsLookup m (dp ++ "/" ++ FEEDS_FILENAME) = none →
        ∃ e, getFeeds data assets o = .error e) ∧
      (fsLookup m (dp ++ "/" ++ DEPLOYMENT_FILENAME) = none →
        ∃ e, loadDeploymentFile data o = .error e) ∧
      (fsLookup m (dp ++ "/" ++ VERSIONS_FILENAME) = none →
        ∃ e, getVersions data o = .error e) ∧
      (fsLookup m (dp ++ "/" ++ FUTURES_MARKETS_FILENAME) = none →
        getFuturesMarkets data assets o = .ok (.vArr [])) ∧
      (fsLookup m (dp ++ "/" ++ PERPS_V2_MARKETS_FILENAME) = none →
        getPerpsMarkets data assets o = .ok (.vArr [])) ∧
      (fsLookup m (dp ++ "/" ++ STAKING_REWARDS_FILENAME) = none →
        getStakingRewards data o = .ok (.vArr [])) ∧
      (fsLookup m (dp ++ "/" ++ SHORTING_REWARDS_FILENAME) = none →
        getShortingRewards data o = .ok (.vArr []))) := by
  intro data assets o dp m hdp hdpne hpath hfs
  have hb : bundledB o = false := by
    unfold bundledB dpTruthy
    rw [hdp]
    simp [hdpne]
  have hface : ∀ f, facetPath o f = dp ++ "/" ++ f := by
    intro f
    unfold facetPath
    rw [hdp]
    simp [hdpne]
  have hread : ∀ f msg, fsLookup m (dp ++ "/" ++ f) = none →
      readFacet o f msg = .error msg := by
    intro f msg hmiss
    unfold readFacet
    rw [hpath, hfs]
    simp only [Bool.not_true, Bool.false_eq_true, if_false]
    rw [hface f, hmiss]
  have hreadD : ∀ f d, fsLookup m (dp ++ "/" ++ f) = none →
      readFacetOrDefault o f d = .ok d := by
    intro f d hmiss
    unfold readFacetOrDefault
    rw [hpath, hfs]
    simp only [Bool.not_true, Bool.false_eq_true, if_false]
    rw [hface f, hmiss]
  refine ⟨?_, ?_, ?_, ?_, ?_, ?_, ?_, ?_⟩
  · intro hmiss
    refine ⟨"Cannot find synth list.", ?_⟩
    unfold getSynths loadSynthsVal
    rw [hb]
    simp only [Bool.false_eq_true, if_false]
    rw [hread SYNTHS_FILENAME _ hmiss]
    rfl
  · intro hmiss
    refine ⟨"Cannot find feeds file.", ?_⟩
    unfold getFeeds
    rw [hb]
    simp only [Bool.false_eq_true, if_false]
    rw [hread FEEDS_FILENAME _ hmiss]
    rfl
  · intro hmiss
    refine ⟨"Cannot find deployment for network: " ++ o.network ++ ".", ?_⟩
    unfold loadDeploymentFile
    rw [hb]
    simp only [Bool.false_eq_true, if_false]
    exact hread DEPLOYMENT_FILENAME _ hmiss
  · intro hmiss
    refine ⟨"Cannot find versions for network.", ?_⟩
    unfold getVersions
    rw [hb]
    simp only [Bool.false_eq_true, if_false]
    rw [hread VERSIONS_FILENAME _ hmiss]
    rfl
  · intro hmiss
    unfold getFuturesMarkets
    rw [hb]
    simp only [Bool.false_eq_true, if_false]
    rw [hreadD FUTURES_MARKETS_FILENAME _ hmiss]
    rfl
  · intro hmiss
    unfold getPerpsMarkets
    rw [hb]
    simp only [Bool.false_eq_true, if_false]
    rw [hreadD PERPS_V2_MARKETS_FILENAME _ hmiss]
    rfl
  · intro hmiss
    unfold getStakingRewards
    rw [hb]
    simp only [Bool.false_eq_true, if_false]
    exact hreadD STAKING_REWARDS_FILENAME _ hmiss
  · intro hmiss
    unfold getShortingRewards
    rw [hb]
    simp only [Bool.false_eq_true, if_false]
    exact hreadD SHORTING_REWARDS_FILENAME _ hmiss

def c5o : Opts := { hasPath := true, fs := some [], deploymentPath := some "d" }

/-- C5 witness: the asymmetry evaluated with an explicit deployment path
    and an empty file system. -/
theorem c5_witness :
    (∃ e, getSynths [] [] c5o = .error e) ∧
      (∃ e, getFeeds [] [] c5o = .error e) ∧
      (∃ e, loadDeploymentFile [] c5o = .error e) ∧
      (∃ e, getVersions [] c5o = .error e) ∧
      getFuturesMarkets [] [] c5o = .ok (.vArr []) ∧
      getPerpsMarkets [] [] c5o = .ok (.vArr []) ∧
      getStakingRewards [] c5o = .ok (.vArr []) ∧
      getShortingRewards [] c5o = .ok (.vArr []) := by
  have h := c5_missing_file_asymmetry [] [] c5o "d" [] rfl (by decide) rfl rfl
  exact ⟨h.1 rfl, h.2.1 rfl, h.2.2.1 rfl, h.2.2.2.1 rfl, h.2.2.2.2.1 rfl,
    h.2.2.2.2.2.1 rfl, h.2.2.2.2.2.2.1 rfl, h.2.2.2.2.2.2.2 rfl⟩

/-! ### `getPerpsV2ProxiedMarkets` -/

/-- The `_consolidateAbi` duplicate test:
    `f.type === g.type && f.name && g.name && f.name === g.name`. -/
def sameTypeName (f g : Value) : Bool :=
  jsStrictEqP (getProp f "type") (getProp g "type") &&
    (truthy (getProp f "name") &&
      (truthy (getProp g "name") &&
        jsStrictEqP (getProp f "name") (getProp g "name")))

/-- One iteration of the `_consolidateAbi` loop: skip fragments already
    present by `(type, name)` (only when both names are truthy) and skip
    constructors, otherwise push. -/
def consolidateStep (cons : List Value) (frag : Value) : List Value :=
  if cons.any (fun f => sameTypeName f frag) then cons
  else if jsStrictEqP (getProp frag "type") (.vStr "constructor") then cons
  else cons ++ [frag]

/-- `_consolidateAbi(currentAbi, consolidatedAbi)` (a `for … of` over a
    non-iterable value throws; strings iterate per character). -/
def consolidateAbi (currentAbi : Value) (consolidated : List Value) :
    Except String (List Value) :=
  match currentAbi with
  | .vArr frags => .ok (frags.foldl consolidateStep consolidated)
  | .vStr s =>
      .ok ((s.data.map (fun c => Value.vStr (String.singleton c))).foldl
        consolidateStep consolidated)
  | _ => .error "TypeError: currentAbi is not iterable"

/-- The `nameFound`/`marketName` computation for a non-proxy component:
    try the long component-name list first (the loop does not break, so a
    later match overwrites an earlier one), then fall back to the generic
    `PerpsV2Market` cut. -/
def perpsV2MarketNameOf (target : String) : Option String :=
  let st := ["PerpsV2MarketViews", "PerpsV2DelayedIntent", "PerpsV2DelayedExecution",
      "PerpsV2MarketLiquidate"].foldl
    (fun (st : Bool × String) pfx =>
      if jsStartsWith target pfx then (true, jsDrop target pfx.length) else st)
    (false, "")
  let st2 := if !st.1 then
      (if jsStartsWith target "PerpsV2Market" then
        (true, jsDrop target ("PerpsV2Market".length))
      else (false, st.2))
    else st
  if st2.1 then some st2.2 else none

/-- `if (!PerpsV2Proxied[marketName]) { PerpsV2Proxied[marketName] = {};
    PerpsV2Proxied[marketName].abi = []; }`. -/
def initMarket (acc : Obj) (marketName : String) : Obj :=
  if truthy (objGet acc marketName) then acc
  else objSet acc marketName (.vObj [("abi", .vArr [])])

/-- `PerpsV2Proxied[marketName].address = targetData.address` (assigning a
    property on a primitive throws in strict mode). -/
def setMarketAddress (addr : Value) (acc1 : Obj) (marketName : String) :
    Except String Obj :=
  match objGet acc1 marketName with
  | .vObj mo => .ok (objSet acc1 marketName (.vObj (objSet mo "address" addr)))
  | _ => .error "TypeError: cannot set a property on a primitive"

/-- `_consolidateAbi(sourceData.abi, PerpsV2Proxied[marketName].abi)`,
    written back into the accumulator (the JS mutates the array in place). -/
def includeComponentAbi (abi : Value) (acc1 : Obj) (marketName : String) :
    Except String Obj :=
  match objGet acc1 marketName with
  | .vObj mo =>
      (match objGet mo "abi" with
       | .vArr l => do
           let l2 ← consolidateAbi abi l
           .ok (objSet acc1 marketName (.vObj (objSet mo "abi" (.vArr l2))))
       | _ => .error "TypeError: consolidatedAbi.find is not a function")
  | _ => .error "TypeError: cannot read property abi of a primitive"

/-- `_analyzeAndIncludePerpsV2` from `index.js`. -/
def analyzeAndIncludePerpsV2 (target : String) (targetData sourceData : Value)
    (acc : Obj) : Except String Obj :=
  if ["PerpsV2MarketSettings", "PerpsV2MarketData", "PerpsV2ExchangeRate"].contains target
      || jsStartsWith target "PerpsV2MarketState"
      || ["PerpsV2DelayedOrder", "PerpsV2OffchainDelayedOrder"].any
           (fun p => jsStartsWith target p) then
    .ok acc
  else if jsStartsWith target "PerpsV2Proxy" then
    let marketName := jsDrop target ("PerpsV2Proxy".length)
    let acc1 := initMarket acc marketName
    do
      let addr ← jsGet targetData "address"
      setMarketAddress addr acc1 marketName
  else
    match perpsV2MarketNameOf target with
    | some marketName =>
        let acc1 := initMarket acc marketName
        do
          let abi ← jsGet sourceData "abi"
          includeComponentAbi abi acc1 marketName
    | none => .ok acc

/-- `getPerpsV2ProxiedMarkets` from `index.js`: note every internal load
    (`loadDeploymentFile`, `getTarget`, `getSource`) is called with
    `useOvm: false`, whatever the caller supplied. -/
def getPerpsV2ProxiedMarkets (data : Obj) (o : Opts) : Except String Obj := do
  let deploymentData ← loadDeploymentFile data { o with useOvm := false }
  let tv ← jsGet deploymentData "targets"
  let targets ← (match tv with
    | .vUndef => .error "TypeError: Object.keys called on undefined"
    | .vNull => .error "TypeError: Object.keys called on null"
    | v => .ok ((enumProps v).map Prod.fst))
  foldE (fun acc target =>
      if !jsStartsWith target "PerpsV2" then .ok acc
      else do
        let targetData ← getTarget data { o with useOvm := false } (.vStr target)
        let srcName ← jsGet targetData "source"
        let sourceData ← getSource data { o with useOvm := false } srcName
        analyzeAndIncludePerpsV2 target targetData sourceData acc)
    [] targets

/-! ### C2, C6, C10 -/

theorem jsStrictEqP_vStr_false (v : Value) (s : String) (h : v ≠ .vStr s) :
    jsStrictEqP v (.vStr s) = false := by
  cases v <;> simp [jsStrictEqP]
  intro he
  exact h (by rw [he])

def c2data (f1 : Value) : Obj :=
  [("mainnet", .vObj [("deployment", .vObj
    [("targets", .vObj
      [("PerpsV2ProxyBTC", .vObj [("address", .vStr "A"),
         ("source", .vStr "ProxyPerpsV2")]),
       ("PerpsV2MarketViewsBTC", .vObj [("address", .vStr "B"),
         ("source", .vStr "PerpsV2MarketViews")]),
       ("PerpsV2MarketSettings", .vObj [("address", .vStr "C"),
         ("source", .vStr "PerpsV2MarketSettings")])]),
     ("sources", .vObj
      [("ProxyPerpsV2", .vObj [("abi", .vArr [])]),
       ("PerpsV2MarketViews", .vObj [("abi", .vArr [f1])]),
       ("PerpsV2MarketSettings", .vObj [("abi", .vArr [])])])])])]

set_option maxRecDepth 8000 in
/-- C2: on a deployment whose targets are the proxy, the views component
    and `PerpsV2MarketSettings`, `getPerpsV2ProxiedMarkets` returns exactly
    `{BTC: {abi: [f1], address: A}}` — the proxy contributes the address
    under the stripped market name, the views component its ABI fragment,
    and `PerpsV2MarketSettings` nothing. -/
theorem c2_perpsV2_example (f1 : Value)
    (hf : getProp f1 "type" ≠ .vStr "constructor") :
    getPerpsV2ProxiedMarkets (c2data f1) {} =
      .ok [("BTC", .vObj [("abi", .vArr [f1]), ("address", .vStr "A")])] := by
  have hstep : jsStrictEqP (getProp f1 "type") (.vStr "constructor") = false :=
    jsStrictEqP_vStr_false _ _ hf
  simp +decide [getPerpsV2ProxiedMarkets, loadDeploymentFile, bundledB, dpTruthy,
    bundledFacet, jsGet, getProp, objGet, enumProps, foldE, getTarget, getSource,
    jsKeyStr, truthy, analyzeAndIncludePerpsV2, perpsV2MarketNameOf, initMarket,
    setMarketAddress, includeComponentAbi, jsStartsWith, jsDrop,
    consolidateAbi, consolidateStep, sameTypeName, objSet,
    getFolderNameForNetwork, jsIncludes, charsInclude, c2data, Bind.bind,
    Except.bind] at hstep ⊢
  simp [hstep]

/-- C2 witness: the theorem evaluated at a concrete function fragment. -/
theorem c2_witness :
    getProp (Value.vObj [("type", .vStr "function"), ("name", .vStr "f1")]) "type" ≠
        Value.vStr "constructor" ∧
      getPerpsV2ProxiedMarkets
          (c2data (.vObj [("type", .vStr "function"), ("name", .vStr "f1")])) {} =
        .ok [("BTC", .vObj [("abi", .vArr [.vObj [("type", .vStr "function"),
          ("name", .vStr "f1")]]), ("address", .vStr "A")])] :=
  ⟨by decide, c2_perpsV2_example (.vObj [("type", .vStr "function"),
    ("name", .vStr "f1")]) (by decide)⟩

def c6fb : Value := .vObj [("type", .vStr "fallback"), ("stateMutability", .vStr "payable")]

def c6data : Obj :=
  [("mainnet", .vObj [("deployment", .vObj
    [("targets", .vObj
      [("PerpsV2MarketViewsBTC", .vObj [("address", .vStr "B"),
         ("source", .vStr "Views")])]),
     ("sources", .vObj [("Views", .vObj [("abi", .vArr [c6fb, c6fb])])])])])]

/-- C6 counterexample: a views component whose ABI contains the same
    unnamed fallback fragment twice ends up contributing it twice — the
    dedup guard requires both fragments to have truthy names, so two
    fragments sharing `(type, name = absent)` both survive. -/
theorem c6_counterexample :
    getPerpsV2ProxiedMarkets c6data {} =
        .ok [("BTC", .vObj [("abi", .vArr [c6fb, c6fb])])] ∧
      getProp c6fb "name" = Value.vUndef ∧
      getProp c6fb "type" = .vStr "fallback" := by
  refine ⟨by decide, by decide, by decide⟩

/-- The invariant maintained on every market's consolidated ABI: no
    constructor fragments, and no two fragments that both carry truthy
    names share the same `(type, name)`. -/
def abiOk (l : List Value) : Prop :=
  (∀ f ∈ l, getProp f "type" ≠ .vStr "constructor") ∧
    List.Pairwise (fun f g => sameTypeName f g = false) l

theorem jsStrictEqP_vStr_true (v : Value) (s : String)
    (h : jsStrictEqP v (.vStr s) = true) : v = .vStr s := by
  cases v <;> simp [jsStrictEqP] at h
  rw [h]

theorem consolidateStep_ok (cons : List Value) (frag : Value) (h : abiOk cons) :
    abiOk (consolidateStep cons frag) := by
  unfold consolidateStep
  by_cases hfound : (cons.any (fun f => sameTypeName f frag)) = true
  · rw [if_pos hfound]
    exact h
  · rw [if_neg (by simp [hfound])]
    by_cases hctor : jsStrictEqP (getProp frag "type") (.vStr "constructor") = true
    · rw [if_pos hctor]
      exact h
    · rw [if_neg (by simp [hctor])]
      constructor
      · intro f hf
        rcases List.mem_append.mp hf with hl | hr
        · exact h.1 f hl
        · rw [List.mem_singleton.mp hr]
          intro he
          exact hctor (by rw [he]; simp [jsStrictEqP])
      · rw [List.pairwise_append]
        refine ⟨h.2, List.pairwise_singleton _ _, ?_⟩
        intro a ha b hb
        rw [List.mem_singleton.mp hb]
        by_contra hc
        rw [Bool.not_eq_false] at hc
        exact hfound (List.any_eq_true.mpr ⟨a, ha, hc⟩)

theorem consolidate_foldl_ok (frags : List Value) (cons : List Value) (h : abiOk cons) :
    abiOk (frags.foldl consolidateStep cons) := by
  induction frags generalizing cons with
  | nil => exact h
  | cons f rest ih =>
      rw [List.foldl_cons]
      exact ih _ (consolidateStep_ok cons f h)

theorem consolidateAbi_ok (abi : Value) (cons l2 : List Value) (h : abiOk cons)
    (hok : consolidateAbi abi cons = .ok l2) : abiOk l2 := by
  cases abi with
  | vStr s =>
      simp only [consolidateAbi] at hok
      cases hok
      exact consolidate_foldl_ok _ cons h
  | vArr frags =>
      simp only [consolidateAbi] at hok
      cases hok
      exact consolidate_foldl_ok frags cons h
  | vUndef => simp [consolidateAbi] at hok
  | vNull => simp [consolidateAbi] at hok
  | vBool b => simp [consolidateAbi] at hok
  | vNum n => simp [consolidateAbi] at hok
  | vObj oo => simp [consolidateAbi] at hok

/-- Every value stored in the accumulator is an object with an `abi` array
    satisfying the invariant. -/
def marketOk (v : Value) : Prop :=
  ∃ mo, v = Value.vObj mo ∧ ∃ l, objGet mo "abi" = Value.vArr l ∧ abiOk l

def accOk (acc : Obj) : Prop := ∀ p ∈ acc, marketOk p.2

theorem mem_objSet (o : Obj) (k : String) (v : Value) (p : String × Value)
    (h : p ∈ objSet o k v) : p.2 = v ∨ p ∈ o := by
  unfold objSet at h
  by_cases hany : (o.any (fun p => p.1 = k)) = true
  · rw [if_pos hany] at h
    rcases List.mem_map.mp h with ⟨q, hq, heq⟩
    by_cases hqk : q.1 = k
    · rw [if_pos hqk] at heq
      left
      rw [← heq]
    · rw [if_neg hqk] at heq
      right
      rw [← heq]
      exact hq
  · rw [if_neg hany] at h
    rcases List.mem_append.mp h with hl | hr
    · right
      exact hl
    · left
      rw [List.mem_singleton.mp hr]

theorem objGet_mem (o : Obj) (k : String) (h : objGet o k ≠ .vUndef) :
    ∃ p ∈ o, p.2 = objGet o k := by
  cases hf : o.find? (fun p => decide (p.1 = k)) with
  | none =>
      exfalso
      apply h
      unfold objGet
      rw [hf]
  | some p =>
      refine ⟨p, List.mem_of_find?_eq_some hf, ?_⟩
      unfold objGet
      rw [hf]

theorem accOk_objSet (acc : Obj) (k : String) (v : Value) (h : accOk acc)
    (hv : marketOk v) : accOk (objSet acc k v) := by
  intro p hp
  rcases mem_objSet acc k v p hp with he | hm
  · rw [he]
    exact hv
  · exact h p hm

theorem accOk_initMarket (acc : Obj) (m : String) (h : accOk acc) :
    accOk (initMarket acc m) := by
  unfold initMarket
  by_cases ht : truthy (objGet acc m) = true
  · rw [if_pos ht]
    exact h
  · rw [if_neg (by simp [ht])]
    refine accOk_objSet acc m _ h ?_
    exact ⟨[("abi", .vArr [])], rfl, [], by decide, by decide, List.Pairwise.nil⟩

theorem accOk_lookup (acc : Obj) (m : String) (mo : Obj) (h : accOk acc)
    (hmo : objGet acc m = .vObj mo) :
    ∃ l, objGet mo "abi" = Value.vArr l ∧ abiOk l := by
  have hne : objGet acc m ≠ .vUndef := by rw [hmo]; intro hc; cases hc
  obtain ⟨p, hp, hpv⟩ := objGet_mem acc m hne
  obtain ⟨mo', he, l, hl, hok⟩ := h p hp
  rw [hmo] at hpv
  rw [he] at hpv
  have : mo' = mo := by injection hpv
  subst this
  exact ⟨l, hl, hok⟩

theorem setMarketAddress_eq (addr : Value) (acc1 : Obj) (m : String) (mo : Obj)
    (hmo : objGet acc1 m = .vObj mo) :
    setMarketAddress addr acc1 m =
      .ok (objSet acc1 m (.vObj (objSet mo "address" addr))) := by
  unfold setMarketAddress
  rw [hmo]

theorem includeComponentAbi_eq (abi : Value) (acc1 : Obj) (m : String) (mo : Obj)
    (l : List Value) (hmo : objGet acc1 m = .vObj mo)
    (hl : objGet mo "abi" = .vArr l) :
    includeComponentAbi abi acc1 m =
      (do
        let l2 ← consolidateAbi abi l
        Except.ok (objSet acc1 m (.vObj (objSet mo "abi" (.vArr l2))))) := by
  unfold includeComponentAbi
  rw [hmo]
  show (match objGet mo "abi" with
    | .vArr l => do
        let l2 ← consolidateAbi abi l
        Except.ok (objSet acc1 m (.vObj (objSet mo "abi" (.vArr l2))))
    | _ => Except.error "TypeError: consolidatedAbi.find is not a function") = _
  rw [hl]

theorem setMarketAddress_accOk (addr : Value) (acc1 acc' : Obj) (m : String)
    (h : accOk acc1) (hok : setMarketAddress addr acc1 m = .ok acc') :
    accOk acc' := by
  cases hmo : objGet acc1 m with
  | vObj mo =>
      rw [setMarketAddress_eq addr acc1 m mo hmo] at hok
      cases hok
      obtain ⟨l, hl, hlok⟩ := accOk_lookup acc1 m mo h hmo
      refine accOk_objSet _ _ _ h ?_
      refine ⟨objSet mo "address" addr, rfl, l, ?_, hlok⟩
      rw [objGet_objSet_ne mo "address" "abi" addr (by decide)]
      exact hl
  | vUndef => unfold setMarketAddress at hok; rw [hmo] at hok; cases hok
  | vNull => unfold setMarketAddress at hok; rw [hmo] at hok; cases hok
  | vBool b => unfold setMarketAddress at hok; rw [hmo] at hok; cases hok
  | vNum n => unfold setMarketAddress at hok; rw [hmo] at hok; cases hok
  | vStr s => unfold setMarketAddress at hok; rw [hmo] at hok; cases hok
  | vArr ll => unfold setMarketAddress at hok; rw [hmo] at hok; cases hok

theorem includeComponentAbi_accOk (abi : Value) (acc1 acc' : Obj) (m : String)
    (h : accOk acc1) (hok : includeComponentAbi abi acc1 m = .ok acc') :
    accOk acc' := by
  cases hmo : objGet acc1 m with
  | vObj mo =>
      obtain ⟨l, hl, hlok⟩ := accOk_lookup acc1 m mo h hmo
      rw [includeComponentAbi_eq abi acc1 m mo l hmo hl] at hok
      simp only [Bind.bind, Except.bind] at hok
      cases hcons : consolidateAbi abi l with
      | error e => rw [hcons] at hok; simp at hok
      | ok l2 =>
          rw [hcons] at hok
          cases hok
          refine accOk_objSet _ _ _ h ?_
          refine ⟨objSet mo "abi" (.vArr l2), rfl, l2, ?_, ?_⟩
          · exact objGet_objSet_self mo "abi" _
          · exact consolidateAbi_ok abi l l2 hlok hcons
  | vUndef => unfold includeComponentAbi at hok; rw [hmo] at hok; cases hok
  | vNull => unfold includeComponentAbi at hok; rw [hmo] at hok; cases hok
  | vBool b => unfold includeComponentAbi at hok; rw [hmo] at hok; cases hok
  | vNum n => unfold includeComponentAbi at hok; rw [hmo] at hok; cases hok
  | vStr s => unfold includeComponentAbi at hok; rw [hmo] at hok; cases hok
  | vArr ll => unfold includeComponentAbi at hok; rw [hmo] at hok; cases hok

theorem analyze_accOk (target : String) (targetData sourceData : Value)
    (acc acc' : Obj) (h : accOk acc)
    (hok : analyzeAndIncludePerpsV2 target targetData sourceData acc = .ok acc') :
    accOk acc' := by
  unfold analyzeAndIncludePerpsV2 at hok
  by_cases hexc : (["PerpsV2MarketSettings", "PerpsV2MarketData",
      "PerpsV2ExchangeRate"].contains target
      || jsStartsWith target "PerpsV2MarketState"
      || ["PerpsV2DelayedOrder", "PerpsV2OffchainDelayedOrder"].any
           (fun p => jsStartsWith target p)) = true
  · rw [if_pos hexc] at hok
    cases hok
    exact h
  · rw [if_neg hexc] at hok
    by_cases hproxy : jsStartsWith target "PerpsV2Proxy" = true
    · rw [if_pos hproxy] at hok
      simp only [Bind.bind, Except.bind] at hok
      cases haddr : jsGet targetData "address" with
      | error e => rw [haddr] at hok; simp at hok
      | ok addr =>
          rw [haddr] at hok
          exact setMarketAddress_accOk addr _ acc' _
            (accOk_initMarket acc _ h) hok
    · rw [if_neg hproxy] at hok
      cases hname : perpsV2MarketNameOf target with
      | none => rw [hname] at hok; cases hok; exact h
      | some m =>
          rw [hname] at hok
          simp only [Bind.bind, Except.bind] at hok
          cases habi : jsGet sourceData "abi" with
          | error e => rw [habi] at hok; simp at hok
          | ok abi =>
              rw [habi] at hok
              exact includeComponentAbi_accOk abi _ acc' m
                (accOk_initMarket acc m h) hok

theorem foldE_inv {σ α : Type} {ε : Type} (P : σ → Prop) (f : σ → α → Except ε σ)
    (hstep : ∀ s a s', P s → f s a = .ok s' → P s') :
    ∀ (l : List α) (s₀ s : σ), P s₀ → foldE f s₀ l = .ok s → P s := by
  intro l
  induction l with
  | nil =>
      intro s₀ s hp hok
      unfold foldE at hok
      cases hok
      exact hp
  | cons a rest ih =>
      intro s₀ s hp hok
      unfold foldE at hok
      simp only [Bind.bind, Except.bind] at hok
      cases hf : f s₀ a with
      | error e => rw [hf] at hok; simp at hok
      | ok s₁ =>
          rw [hf] at hok
          exact ih s₁ s (hstep s₀ a s₁ hp hf) hok


theorem exBind_ok {α β ε : Type} (a : α) (f : α → Except ε β) :
    (Except.ok a : Except ε α) >>= f = f a := rfl

theorem exBind_err {α β ε : Type} (e : ε) (f : α → Except ε β) :
    (Except.error e : Except ε α) >>= f = Except.error e := rfl

theorem accOk_nil : accOk [] := by
  intro p hp
  exact absurd hp (List.not_mem_nil p)

/-- The scanning fold of `getPerpsV2ProxiedMarkets` preserves the ABI
    invariant. -/
theorem perpsFold_accOk (data : Obj) (o : Opts) (targets : List String)
    (s₀ res : Obj) (h0 : accOk s₀)
    (hok : foldE (fun acc target =>
        if !jsStartsWith target "PerpsV2" then .ok acc
        else do
          let targetData ← getTarget data { o with useOvm := false } (.vStr target)
          let srcName ← jsGet targetData "source"
          let sourceData ← getSource data { o with useOvm := false } srcName
          analyzeAndIncludePerpsV2 target targetData sourceData acc)
      s₀ targets = .ok res) : accOk res := by
  refine foldE_inv accOk _ ?_ targets s₀ res h0 hok
  intro s a s' hs hstep
  by_cases hsw : jsStartsWith a "PerpsV2" = true
  · rw [if_neg (by simp [hsw])] at hstep
    cases ht : getTarget data { o with useOvm := false } (.vStr a) with
    | error e =>
        simp only [ht, exBind_err] at hstep
        exact Except.noConfusion hstep
    | ok td =>
        simp only [ht, exBind_ok] at hstep
        cases hs2 : jsGet td "source" with
        | error e =>
            simp only [hs2, exBind_err] at hstep
            exact Except.noConfusion hstep
        | ok sn =>
            simp only [hs2, exBind_ok] at hstep
            cases hs3 : getSource data { o with useOvm := false } sn with
            | error e =>
                simp only [hs3, exBind_err] at hstep
                exact Except.noConfusion hstep
            | ok sd =>
                simp only [hs3, exBind_ok] at hstep
                exact analyze_accOk a td sd s s' hs hstep
  · rw [if_pos (by simp [hsw])] at hstep
    cases hstep
    exact hs

/-- C6 (amended): in every mapping returned by `getPerpsV2ProxiedMarkets`,
    no market's `abi` contains a fragment of type `constructor`, and no two
    fragments that BOTH carry truthy `name`s share the same `(type, name)`
    pair — the dedup does not apply to fragments lacking a name (the
    counterexample exhibits two identical unnamed fallback fragments). -/
theorem c6_abi_invariant :
    ∀ (data : Obj) (o : Opts) (res : Obj),
      getPerpsV2ProxiedMarkets data o = .ok res →
      ∀ p ∈ res, ∀ l, getProp p.2 "abi" = .vArr l →
        (∀ f ∈ l, getProp f "type" ≠ .vStr "constructor") ∧
          List.Pairwise (fun f g => sameTypeName f g = false) l := by
  intro data o res hok p hp l hl
  unfold getPerpsV2ProxiedMarkets at hok
  have hacc : accOk res := by
    cases hload : loadDeploymentFile data { o with useOvm := false } with
    | error e =>
        simp only [hload, exBind_err] at hok
        exact Except.noConfusion hok
    | ok dd =>
        simp only [hload, exBind_ok] at hok
        cases hjg : jsGet dd "targets" with
        | error e =>
            simp only [hjg, exBind_err] at hok
            exact Except.noConfusion hok
        | ok tv =>
            simp only [hjg, exBind_ok] at hok
            cases tv with
            | vUndef => exact Except.noConfusion hok
            | vNull => exact Except.noConfusion hok
            | vBool b => exact perpsFold_accOk data o _ [] res accOk_nil hok
            | vNum n => exact perpsFold_accOk data o _ [] res accOk_nil hok
            | vStr s => exact perpsFold_accOk data o _ [] res accOk_nil hok
            | vArr ll => exact perpsFold_accOk data o _ [] res accOk_nil hok
            | vObj oo => exact perpsFold_accOk data o _ [] res accOk_nil hok
  obtain ⟨mo, hmo, l0, hl0, hok0⟩ := hacc p hp
  rw [hmo] at hl
  have hl' : objGet mo "abi" = .vArr l := hl
  rw [hl0] at hl'
  have : l0 = l := by injection hl'
  subst this
  exact hok0

def c6wData : Obj :=
  [("mainnet", .vObj [("deployment", .vObj
    [("targets", .vObj
      [("PerpsV2MarketStateETH", .vObj [("address", .vStr "S"),
         ("source", .vStr "State")]),
       ("PerpsV2MarketETH", .vObj [("address", .vStr "M"),
         ("source", .vStr "Market")])]),
     ("sources", .vObj
      [("State", .vObj [("abi", .vArr [])]),
       ("Market", .vObj [("abi", .vArr
         [.vObj [("type", .vStr "constructor")],
          .vObj [("type", .vStr "function"), ("name", .vStr "transfer")],
          .vObj [("type", .vStr "function"), ("name", .vStr "transfer")]])])])])])]

/-- C6 witness: the invariant evaluated on a concrete deployment whose
    market component carries a constructor fragment and a duplicate named
    fragment, both of which the consolidation removes. -/
theorem c6_witness :
    (∀ f ∈ [Value.vObj [("type", .vStr "function"), ("name", .vStr "transfer")]],
        getProp f "type" ≠ .vStr "constructor") ∧
      List.Pairwise (fun f g => sameTypeName f g = false)
        [Value.vObj [("type", .vStr "function"), ("name", .vStr "transfer")]] := by
  have h := c6_abi_invariant c6wData {}
    [("ETH", .vObj [("abi", .vArr
      [.vObj [("type", .vStr "function"), ("name", .vStr "transfer")]])])]
    (by decide)
    ("ETH", .vObj [("abi", .vArr
      [.vObj [("type", .vStr "function"), ("name", .vStr "transfer")]])])
    (by decide)
    [.vObj [("type", .vStr "function"), ("name", .vStr "transfer")]]
    (by decide)
  exact h

/-! ### C10: getPerpsV2ProxiedMarkets ignores the caller's useOvm -/

/-- C10: `getPerpsV2ProxiedMarkets` overrides `useOvm` to `false` on every
    option record it passes down (`loadDeploymentFile`, `getTarget`,
    `getSource`), so its result is the same for every `useOvm` the caller
    supplies — including `useOvm = true` as merged in by the `wrap`
    binding — and always reflects the non-OVM folder of the network. -/
theorem c10_useOvm_ignored (data : Obj) (o : Opts) (b : Bool) :
    getPerpsV2ProxiedMarkets data { o with useOvm := b } =
      getPerpsV2ProxiedMarkets data o := by
  cases o
  rfl

/-! ### C8: enhanceDecodedData (`index.js` lines 834-898)

The decode helpers `decodedBytes32` and `decodeUint` wrap their work in
`try`/`catch` and degrade to a sentinel, but the *shape*-dependent steps in
`enhanceDecodedData` itself — `p.value.map` in the `bytes32[]` branch and
`p.value[key].startsWith` in the `tuple` branch — are not guarded. -/

/-- `decodedBytes32` from `enhanceDecodedData`: the ascii rendering of a
    `bytes32` value with NUL characters removed
    (`fromBytes32(p).replaceAll('\x00', '')`); any decode failure — including
    a non-string argument, which `isHexStrict` rejects — is caught and
    replaced by the sentinel. -/
def decodedBytes32 (p : Value) : Value :=
  match p with
  | .vStr s =>
      match fromBytes32 s with
      | .ok a => .vObj [("ascii",
          .vStr (String.mk (a.data.filter (fun c => c ≠ '\x00'))))]
      | .error _ => .vObj [("ascii", .vStr "\\error decoding\\")]
  | _ => .vObj [("ascii", .vStr "\\error decoding\\")]

/-- The global replace of `/(\d)(?=(\d{3})+(?!\d))/` with `$1,` on a
    BN-rendered number (an optional sign followed by decimal digits): a
    digit is followed by a comma exactly when the digits after it make up
    one or more complete groups of three. -/
def groupDigits : List Char → List Char
  | [] => []
  | c :: rest =>
      (if c.isDigit && rest.all Char.isDigit && rest.length % 3 == 0
          && rest.length != 0 then
        [c, ',']
      else [c]) ++ groupDigits rest

/-- `formatDecimals` from `enhanceDecodedData`. -/
def formatDecimals (s : String) : String := String.mk (groupDigits s.data)

/-- `String.prototype.trim`. -/
def jsTrim (cs : List Char) : List Char :=
  ((cs.dropWhile Char.isWhitespace).reverse.dropWhile Char.isWhitespace).reverse

/-- `strip-hex-prefix`: remove one leading `0x`. -/
def stripHexPfx : List Char → List Char
  | '0' :: 'x' :: t => t
  | cs => cs

/-- Value of a string of hex digits. -/
def hexNatVal (cs : List Char) : Nat := cs.foldl (fun a c => 16 * a + hexVal c) 0

/-- Value of a string of decimal digits. -/
def decNatVal (cs : List Char) : Nat :=
  cs.foldl (fun a c => 10 * a + (c.toNat - 48)) 0

/-- `number-to-bn` on a string argument, as called by `web3-utils`' `toBN`:
    lower-case and trim, note a `0x`/`-0x` prefix, strip prefixes and a
    leading minus (which flips the sign via a `-1` multiplier), replace an
    empty remainder by `0`, then dispatch on the decimal
    (`/^-?[0-9]+$/`), hex (`/^[0-9A-Fa-f]+$/`) and letters-only
    (`/^[a-fA-F]+$/`) patterns; anything else throws (here: `none`). -/
def numberToBN (arg : List Char) : Option Int :=
  let fs := jsTrim (arg.map Char.toLower)
  let isHexPfx : Bool :=
    (match fs with
     | '0' :: 'x' :: _ => true
     | '-' :: '0' :: 'x' :: _ => true
     | _ => false)
  let s1 := stripHexPfx fs
  let neg : Bool := (match s1 with | '-' :: _ => true | _ => false)
  let s2 := (match s1 with | '-' :: t => stripHexPfx t | _ => s1)
  let sa := if s2 = [] then ['0'] else s2
  let decM : Bool :=
    (match sa with
     | '-' :: t => !t.isEmpty && t.all Char.isDigit
     | _ => !sa.isEmpty && sa.all Char.isDigit)
  let hexM : Bool := !sa.isEmpty && sa.all isHexDigit
  let alphaM : Bool := !sa.isEmpty &&
    sa.all (fun c => ('a' ≤ c && c ≤ 'f') || ('A' ≤ c && c ≤ 'F'))
  if (!decM && hexM) || alphaM || (isHexPfx && hexM) then
    some ((if neg then -1 else 1) * Int.ofNat (hexNatVal sa))
  else if decM && !isHexPfx then
    some ((if neg then -1 else 1) *
      (match sa with
       | '-' :: t => -(Int.ofNat (decNatVal t))
       | _ => Int.ofNat (decNatVal sa)))
  else none

/-- `w3utils.toBN` on a decoded value: numbers pass through, strings go
    through `number-to-bn`, anything else throws. -/
def jsToBN (v : Value) : Except String Int :=
  match v with
  | .vNum n => .ok n
  | .vStr s =>
      (match numberToBN s.data with
       | some n => .ok n
       | none => .error "Error: [number-to-bn] while converting number")
  | _ => .error "Error: [number-to-bn] while converting number"

/-- `BN.prototype.toString(10)` / JS integer rendering. -/
def intToDecStr (n : Int) : String := toString n

/-- `decodeUint` from `enhanceDecodedData`: basis points, 18-decimal units
    and the raw number (`BN.div` truncates toward zero); any `toBN` failure
    is caught and replaced by the sentinel. -/
def decodeUint (p : Value) : Value :=
  match jsToBN p with
  | .ok n =>
      .vObj [("bp", .vStr (intToDecStr (Int.tdiv n 100000000000000))),
             ("decimal",
               .vStr (formatDecimals (intToDecStr (Int.tdiv n 1000000000000000000)))),
             ("number", .vStr (formatDecimals (intToDecStr n)))]
  | .error _ => .vObj [("ascii", .vStr "\\error decoding\\")]

mutual

/-- The `String(v)` coercion (as applied by `RegExp.prototype.test` to a
    non-string argument). -/
def jsToStr : Value → String
  | .vUndef => "undefined"
  | .vNull => "null"
  | .vBool b => if b then "true" else "false"
  | .vNum n => intToDecStr n
  | .vStr s => s
  | .vArr l => jsArrJoin l
  | .vObj _ => "[object Object]"

/-- `Array.prototype.toString`: elements joined by commas, `null` and
    `undefined` rendered as the empty string. -/
def jsArrJoin : List Value → String
  | [] => ""
  | [.vUndef] => ""
  | [.vNull] => ""
  | [v] => jsToStr v
  | .vUndef :: r => "," ++ jsArrJoin r
  | .vNull :: r => "," ++ jsArrJoin r
  | v :: r => jsToStr v ++ "," ++ jsArrJoin r

end

/-- One candidate position for `/u?int[1-3][0-9]?./`: since `[0-9]?` may
    match empty, the pattern matches here exactly when the text starts with
    `int`, a digit `1`-`3` and one further character that `.` accepts
    (anything but a line terminator); a leading `u` is covered by the same
    test one position later. -/
def intReMatchAt : List Char → Bool
  | 'i' :: 'n' :: 't' :: d :: c :: _ =>
      ('1' ≤ d && d ≤ '3') &&
        !(c = '\n' || c = '\r' || c.toNat = 8232 || c.toNat = 8233)
  | _ => false

/-- `/u?int[1-3][0-9]?./.test(s)`: some suffix of `s` matches. -/
def intReTest (s : String) : Bool := s.data.tails.any intReMatchAt

/-- The optional exponent tail of a JS numeric string literal. -/
def expPartOk : List Char → Bool
  | [] => true
  | c :: rest =>
      (c = 'e' || c = 'E') &&
        (match rest with
         | '+' :: t => !t.isEmpty && t.all Char.isDigit
         | '-' :: t => !t.isEmpty && t.all Char.isDigit
         | t => !t.isEmpty && t.all Char.isDigit)

/-- An unsigned decimal JS numeric literal: `digits [. digits] [exp]` or
    `. digits [exp]`. -/
def decCore (cs : List Char) : Bool :=
  let ip := cs.takeWhile Char.isDigit
  let rest := cs.drop ip.length
  if ip.isEmpty then
    match rest with
    | '.' :: t =>
        let fr := t.takeWhile Char.isDigit
        !fr.isEmpty && expPartOk (t.drop fr.length)
    | _ => false
  else
    match rest with
    | '.' :: t =>
        let fr := t.takeWhile Char.isDigit
        expPartOk (t.drop fr.length)
    | r => expPartOk r

/-- A (trimmed, non-empty) string that `Number(...)` parses: hex, binary or
    octal literals (unsigned), or an optionally signed decimal literal or
    `Infinity`. -/
def strIsNumeric (cs : List Char) : Bool :=
  match cs with
  | '0' :: 'x' :: t => !t.isEmpty && t.all isHexDigit
  | '0' :: 'X' :: t => !t.isEmpty && t.all isHexDigit
  | '0' :: 'b' :: t => !t.isEmpty && t.all (fun c => c = '0' || c = '1')
  | '0' :: 'B' :: t => !t.isEmpty && t.all (fun c => c = '0' || c = '1')
  | '0' :: 'o' :: t => !t.isEmpty && t.all (fun c => '0' ≤ c && c ≤ '7')
  | '0' :: 'O' :: t => !t.isEmpty && t.all (fun c => '0' ≤ c && c ≤ '7')
  | '+' :: t => decCore t || t = "Infinity".data
  | '-' :: t => decCore t || t = "Infinity".data
  | _ => decCore cs || cs = "Infinity".data

/-- `isNaN(s)` on a string: `Number('')` and `Number(whitespace)` are `0`,
    otherwise the trimmed string must be a numeric literal. -/
def jsIsNaN (s : String) : Bool :=
  let t := jsTrim s.data
  if t.isEmpty then false else !strIsNumeric t

/-- An object-literal spread `{ ...p, k: v }`: the own enumerable
    properties of `p` in order, with `k` overridden in place or appended. -/
def spreadWith (p : Value) (k : String) (v : Value) : Value :=
  .vObj (objSet (enumProps p) k v)

/-- JS property assignment `p[k] = v` outside strict mode: updates an
    object in place and is a silent no-op on a primitive. -/
def setPropVal (p : Value) (k : String) (v : Value) : Value :=
  match p with
  | .vObj l => .vObj (objSet l k v)
  | other => other

/-- The body of the `tuple` loop in `enhanceDecodedData`: a string field
    starting with `0x` is kept raw (or, at length 66, decoded as bytes32),
    any other string field is decoded as a uint, and a non-string field
    makes `p.value[key].startsWith` throw a `TypeError`. -/
def tupleStep (pv : Value) (acc : Obj) (k : String) : Except String Obj :=
  match getProp pv k with
  | .vStr s =>
      if jsStartsWith s "0x" then
        if s.length = 66 then
          .ok (objSet acc k (.vObj [("original", .vStr s),
            ("enhanced", decodedBytes32 (.vStr s))]))
        else .ok (objSet acc k (.vStr s))
      else
        .ok (objSet acc k (.vObj [("original", .vStr s),
          ("enhanced", decodeUint (.vStr s))]))
  | .vUndef =>
      .error "TypeError: Cannot read properties of undefined (reading startsWith)"
  | .vNull =>
      .error "TypeError: Cannot read properties of null (reading startsWith)"
  | _ => .error "TypeError: p.value[key].startsWith is not a function"

/-- The per-parameter callback of `enhanceDecodedData`: `bytes32` and
    integer-typed parameters are copied with an `enhanced` field (the
    decoders themselves never throw); the `bytes32[]` branch calls
    `p.value.map` and the `tuple` branch calls `p.value[key].startsWith`
    on every non-numerically-named field, both of which throw a `TypeError`
    when the value has the wrong shape. -/
def enhanceParam (p : Value) : Except String Value := do
  let ty ← jsGet p "type"
  if jsStrictEqP ty (.vStr "bytes32") then
    return spreadWith p "enhanced" (decodedBytes32 (getProp p "value"))
  else
    let p1 ←
      (if jsStrictEqP ty (.vStr "bytes32[]") then
        match getProp p "value" with
        | .vArr l =>
            .ok (setPropVal p "value" (.vArr (l.map (fun o =>
              .vObj [("original", o), ("enhanced", decodedBytes32 o)]))))
        | .vUndef =>
            .error "TypeError: Cannot read properties of undefined (reading map)"
        | .vNull =>
            .error "TypeError: Cannot read properties of null (reading map)"
        | _ => .error "TypeError: p.value.map is not a function"
      else .ok p)
    if intReTest (jsToStr ty) then
      return spreadWith p1 "enhanced" (decodeUint (getProp p1 "value"))
    else if jsStrictEqP ty (.vStr "tuple") then
      let pv ←
        (match getProp p1 "value" with
         | .vUndef =>
             Except.error "TypeError: Cannot convert undefined or null to object"
         | .vNull =>
             Except.error "TypeError: Cannot convert undefined or null to object"
         | v => .ok v)
      let keys := ((enumProps pv).map Prod.fst).filter (fun k => jsIsNaN k)
      let values ← foldE (tupleStep pv) [] keys
      return setPropVal p1 "value" (.vObj values)
    else
      return p1

/-- `enhanceDecodedData` from `index.js`: maps the enhancement callback
    over `decoded.method.params` and rebuilds the method and the decoded
    record by spread.  (The `values` accumulator of the tuple branch is a
    JS array used purely as a string-keyed map, embedded as an object.) -/
def enhanceDecodedData (decoded : Value) : Except String Value := do
  let method ← jsGet decoded "method"
  let params ← jsGet method "params"
  let pl ←
    (match params with
     | .vArr l => Except.ok l
     | .vUndef =>
         .error "TypeError: Cannot read properties of undefined (reading map)"
     | .vNull =>
         .error "TypeError: Cannot read properties of null (reading map)"
     | _ => .error "TypeError: decoded.method.params.map is not a function")
  let enhanced ← mapE enhanceParam pl
  return spreadWith decoded "method" (spreadWith method "params" (.vArr enhanced))

/-- Shape condition for the `bytes32[]` branch: if the parameter's type is
    `bytes32[]`, its value must be an array. -/
def b32ArrShapeOk (p : Value) : Bool :=
  !jsStrictEqP (getProp p "type") (.vStr "bytes32[]") ||
    (match getProp p "value" with | .vArr _ => true | _ => false)

/-- Shape condition for one tuple field: a non-numerically-named field must
    be a string (so `.startsWith` exists). -/
def tupleFieldOk (pv : Value) (k : String) : Bool :=
  !jsIsNaN k || (match getProp pv k with | .vStr _ => true | _ => false)

/-- Shape condition for the `tuple` branch: if the parameter's type is
    `tuple`, its value must be a plain object all of whose
    non-numerically-named fields are strings (a number or boolean value,
    whose `Object.keys` is empty, is also harmless). -/
def tupleShapeOk (p : Value) : Bool :=
  !jsStrictEqP (getProp p "type") (.vStr "tuple") ||
    (match getProp p "value" with
     | .vObj m => (m.map Prod.fst).all (tupleFieldOk (.vObj m))
     | .vNum _ => true
     | .vBool _ => true
     | _ => false)

/-- A well-shaped decoded parameter: not `null`/`undefined` (so `p.type` is
    readable) and shaped for the `bytes32[]` and `tuple` branches. -/
def paramShapeOk (p : Value) : Bool :=
  (match p with | .vUndef => false | .vNull => false | _ => true) &&
    b32ArrShapeOk p && tupleShapeOk p

/-- A well-shaped decoded record: `decoded.method.params` is an array of
    well-shaped parameters. -/
def decodedShapeOk (d : Value) : Bool :=
  match jsGet d "method" with
  | .error _ => false
  | .ok m =>
      match jsGet m "params" with
      | .error _ => false
      | .ok (.vArr l) => l.all paramShapeOk
      | .ok _ => false

/-- A decoded record whose single parameter is a `tuple` with a boolean
    field: `enhanceDecodedData` calls `.startsWith` on the boolean. -/
def c8bad : Value :=
  .vObj [("method", .vObj [("params", .vArr
    [.vObj [("type", .vStr "tuple"),
            ("value", .vObj [("flag", .vBool true)])]])])]

theorem jsGet_ok_nn (p : Value) (k : String)
    (h : (match p with | .vUndef => false | .vNull => false | _ => true) = true) :
    jsGet p k = .ok (getProp p k) := by
  cases p
  case vUndef => cases h
  case vNull => cases h
  all_goals rfl

theorem mapE_ok_of_all {α β : Type} (f : α → Except String β) :
    ∀ l : List α, (∀ a ∈ l, ∃ b, f a = .ok b) → ∃ l', mapE f l = .ok l'
  | [], _ => ⟨[], rfl⟩
  | a :: t, h => by
      obtain ⟨b, hb⟩ := h a (List.mem_cons_self a t)
      obtain ⟨l', hl'⟩ :=
        mapE_ok_of_all f t (fun x hx => h x (List.mem_cons_of_mem a hx))
      exact ⟨b :: l', by simp only [mapE, hb, exBind_ok, hl']⟩

theorem foldE_ok_of_all {α σ : Type} (f : σ → α → Except String σ) :
    ∀ (l : List α) (s : σ), (∀ a ∈ l, ∀ acc, ∃ s', f acc a = .ok s') →
      ∃ r, foldE f s l = .ok r
  | [], s, _ => ⟨s, rfl⟩
  | a :: t, s, h => by
      obtain ⟨s', hs'⟩ := h a (List.mem_cons_self a t) s
      obtain ⟨r, hr⟩ :=
        foldE_ok_of_all f t s' (fun x hx => h x (List.mem_cons_of_mem a hx))
      exact ⟨r, by simp only [foldE, hs', exBind_ok, hr]⟩

theorem tupleStep_ok (pv : Value) (k : String)
    (h : ∃ s, getProp pv k = .vStr s) (acc : Obj) :
    ∃ r, tupleStep pv acc k = .ok r := by
  obtain ⟨s, hs⟩ := h
  unfold tupleStep
  simp only [hs]
  by_cases h0 : jsStartsWith s "0x" = true
  · by_cases h66 : s.length = 66
    · rw [if_pos h0, if_pos h66]; exact ⟨_, rfl⟩
    · rw [if_pos h0, if_neg h66]; exact ⟨_, rfl⟩
  · rw [if_neg h0]; exact ⟨_, rfl⟩

theorem enhanceParam_ok (p : Value) (h : paramShapeOk p = true) :
    ∃ q, enhanceParam p = .ok q := by
  simp only [paramShapeOk, Bool.and_eq_true] at h
  obtain ⟨⟨hnn, h1⟩, h2⟩ := h
  unfold enhanceParam
  rw [jsGet_ok_nn p "type" hnn]
  simp only [exBind_ok]
  by_cases h32 : jsStrictEqP (getProp p "type") (.vStr "bytes32") = true
  · rw [if_pos h32]; exact ⟨_, rfl⟩
  · rw [if_neg h32]
    by_cases h32a : jsStrictEqP (getProp p "type") (.vStr "bytes32[]") = true
    · have hty := jsStrictEqP_vStr_true _ _ h32a
      simp only [b32ArrShapeOk, h32a, Bool.not_true, Bool.false_or] at h1
      cases hpv : getProp p "value" with
      | vArr l =>
          rw [if_pos h32a]
          simp only [exBind_ok]
          rw [hty]
          rw [if_neg (by decide :
            ¬ (intReTest (jsToStr (Value.vStr "bytes32[]")) = true))]
          rw [if_neg (by decide :
            ¬ (jsStrictEqP (Value.vStr "bytes32[]") (.vStr "tuple") = true))]
          exact ⟨_, rfl⟩
      | vUndef => rw [hpv] at h1; cases h1
      | vNull => rw [hpv] at h1; cases h1
      | vBool b => rw [hpv] at h1; cases h1
      | vNum n => rw [hpv] at h1; cases h1
      | vStr s => rw [hpv] at h1; cases h1
      | vObj m => rw [hpv] at h1; cases h1
    · rw [if_neg h32a]
      simp only [exBind_ok]
      by_cases hre : intReTest (jsToStr (getProp p "type")) = true
      · rw [if_pos hre]; exact ⟨_, rfl⟩
      · rw [if_neg hre]
        by_cases htu : jsStrictEqP (getProp p "type") (.vStr "tuple") = true
        · rw [if_pos htu]
          simp only [tupleShapeOk, htu, Bool.not_true, Bool.false_or] at h2
          cases hpv : getProp p "value" with
          | vUndef => rw [hpv] at h2; cases h2
          | vNull => rw [hpv] at h2; cases h2
          | vStr s => rw [hpv] at h2; cases h2
          | vArr l => rw [hpv] at h2; cases h2
          | vBool b => exact ⟨_, rfl⟩
          | vNum n => exact ⟨_, rfl⟩
          | vObj m =>
              simp only [exBind_ok]
              rw [hpv] at h2
              have h2x : (m.map Prod.fst).all (tupleFieldOk (Value.vObj m)) = true := h2
              have hall : ∀ k ∈ ((enumProps (Value.vObj m)).map Prod.fst).filter
                  (fun k => jsIsNaN k), ∀ acc : Obj,
                  ∃ r, tupleStep (Value.vObj m) acc k = .ok r := by
                intro k hk acc
                have hk' := List.mem_filter.mp hk
                have hf := List.all_eq_true.mp h2x k hk'.1
                simp only [tupleFieldOk, hk'.2, Bool.not_true, Bool.false_or] at hf
                refine tupleStep_ok (Value.vObj m) k ?_ acc
                cases hg : getProp (Value.vObj m) k with
                | vStr s => exact ⟨s, rfl⟩
                | vUndef => rw [hg] at hf; cases hf
                | vNull => rw [hg] at hf; cases hf
                | vBool b => rw [hg] at hf; cases hf
                | vNum n => rw [hg] at hf; cases hf
                | vArr l => rw [hg] at hf; cases hf
                | vObj o => rw [hg] at hf; cases hf
              obtain ⟨vs, hvs⟩ := foldE_ok_of_all (tupleStep (Value.vObj m))
                (((enumProps (Value.vObj m)).map Prod.fst).filter
                  (fun k => jsIsNaN k)) [] hall
              rw [hvs]
              simp only [exBind_ok]
              exact ⟨_, rfl⟩
        · rw [if_neg htu]
          exact ⟨_, rfl⟩

/-- C8 counterexample: on a decoded record whose single parameter has type
    `tuple` and a boolean-valued named field, `enhanceDecodedData` throws a
    `TypeError` (`p.value[key].startsWith` on a boolean) instead of
    degrading to the sentinel. -/
theorem c8_counterexample :
    enhanceDecodedData c8bad =
      .error "TypeError: p.value[key].startsWith is not a function" := by
  decide

set_option maxRecDepth 2000 in
/-- C8 (amended): the decode helpers themselves never abort — a decode or
    format failure inside `decodedBytes32`/`decodeUint` degrades to the
    sentinel — so `enhanceDecodedData` returns a complete enhanced record
    on every decoded input whose parameters are well-shaped: each parameter
    is an object (not `null`/`undefined`), a `bytes32[]` parameter carries
    an array value, and a `tuple` parameter carries an object value whose
    non-numerically-named fields are all strings.  Outside that shape
    (`bytes32[]` with a non-array value, `tuple` with a non-string field)
    the unguarded `.map`/`.startsWith` calls throw a `TypeError`. -/
theorem c8_enhance_total (d : Value) (h : decodedShapeOk d = true) :
    ∃ r, enhanceDecodedData d = .ok r := by
  unfold decodedShapeOk at h
  unfold enhanceDecodedData
  cases hm : jsGet d "method" with
  | error e => rw [hm] at h; cases h
  | ok m =>
      rw [hm] at h
      have hq : (match jsGet m "params" with
          | Except.error _ => false
          | Except.ok (Value.vArr l) => l.all paramShapeOk
          | Except.ok _ => false) = true := h
      cases hp : jsGet m "params" with
      | error e => rw [hp] at hq; cases hq
      | ok pv =>
          rw [hp] at hq
          cases pv with
          | vArr l =>
              have h' : l.all paramShapeOk = true := hq
              obtain ⟨l', hl'⟩ := mapE_ok_of_all enhanceParam l
                (fun q hq => enhanceParam_ok q (List.all_eq_true.mp h' q hq))
              simp only [hm, exBind_ok, hp]
              simp only [exBind_ok, hl']
              exact ⟨_, rfl⟩
          | vUndef => cases hq
          | vNull => cases hq
          | vBool b => cases hq
          | vNum n => cases hq
          | vStr s => cases hq
          | vObj o => cases hq

def c8wD : Value :=
  .vObj [("method", .vObj [("name", .vStr "transfer"), ("params", .vArr
    [.vObj [("type", .vStr "bytes32"), ("value", .vStr (toBytes32 "zBTC"))],
     .vObj [("type", .vStr "uint256"),
            ("value", .vStr "2500000000000000000")],
     .vObj [("type", .vStr "tuple"),
            ("value", .vObj [("0", .vStr "0xff"),
                             ("owner", .vStr "0xabc"),
                             ("amount", .vStr "42")])]])])]

/-- C8 witness: the amended totality theorem applied to a concrete decoded
    record with a `bytes32`, a `uint256` and a well-shaped `tuple`
    parameter. -/
theorem c8_witness :
    decodedShapeOk c8wD = true ∧ ∃ r, enhanceDecodedData c8wD = .ok r :=
  ⟨by decide, c8_enhance_total c8wD (by decide)⟩
